import Mathlib

set_option linter.unusedVariables false

/-! Shallow embedding of `src/avifinfo.rs` (the Rust port of libavifinfo).

Machine integers are modelled as `Nat`; the only place the source relies on
bounded integer arithmetic is `usize::checked_add`, modelled with an explicit
`USIZE_MAX` bound.  Byte slices are `List Nat`; fallible operations return
`Except InternalError`.  Functions that mutate `&mut self` / `&mut u32`
state return that state next to the `Except` result, because the source
keeps mutations that happened before an early `Err` return. -/

namespace Avifinfo

inductive InternalError : Type
  | NotFound
  | Truncated
  | Aborted
  | Invalid
deriving DecidableEq

abbrev InternalResult (α : Type) := Except InternalError α

inductive AvifInfoError : Type
  | NotEnoughData
  | TooComplex
  | InvalidFile
deriving DecidableEq

/-- Mirrors `impl From<InternalError> for AvifInfoError`. -/
def internalToPublic : InternalError → AvifInfoError
  | .NotFound => .NotEnoughData
  | .Truncated => .NotEnoughData
  | .Aborted => .TooComplex
  | .Invalid => .InvalidFile

instance {ε α : Type} [DecidableEq ε] [DecidableEq α] : DecidableEq (Except ε α) :=
  fun a b =>
    match a, b with
    | .ok x, .ok y =>
      if h : x = y then .isTrue (by rw [h]) else .isFalse (by intro hc; cases hc; exact h rfl)
    | .ok _, .error _ => .isFalse (by intro hc; cases hc)
    | .error _, .ok _ => .isFalse (by intro hc; cases hc)
    | .error x, .error y =>
      if h : x = y then .isTrue (by rw [h]) else .isFalse (by intro hc; cases hc; exact h rfl)

structure Features where
  width : Nat := 0
  height : Nat := 0
  bit_depth : Nat := 0
  num_channels : Nat := 0
  has_gainmap : Bool := false
  gainmap_item_id : Nat := 0
  primary_item_id_location : Nat := 0
  primary_item_id_bytes : Nat := 0
deriving DecidableEq

def AVIFINFO_MAX_NUM_BOXES : Nat := 4096
def AVIFINFO_MAX_VALUE : Nat := 255
def AVIFINFO_MAX_TILES : Nat := 16
def AVIFINFO_MAX_PROPS : Nat := 32
def AVIFINFO_MAX_FEATURES : Nat := 8
def AVIFINFO_UNDEFINED : Nat := 0

/-- `usize::MAX` on the 64-bit targets the crate is built for. -/
def USIZE_MAX : Nat := 2 ^ 64 - 1

/-- Model of `usize::checked_add`. -/
def checkedAdd (a b : Nat) : Option Nat :=
  if a + b ≤ USIZE_MAX then some (a + b) else none

/-- Big-endian value of a byte list (`uN::from_be_bytes`). -/
def beVal (l : List Nat) : Nat := l.foldl (fun a b => a * 256 + b) 0

/-- Big-endian value of the `n` bytes of `data` starting at `off`. -/
def sliceBE (data : List Nat) (off n : Nat) : Nat := beVal ((data.drop off).take n)

structure Stream where
  data : Option (List Nat)
  size : Option Nat
  offset : Nat
deriving DecidableEq

def Stream.skip (s : Stream) (num_bytes : Nat) : InternalResult Stream :=
  match checkedAdd s.offset num_bytes with
  | none => .error .Aborted
  | some off =>
    match s.size with
    | some sz => if off > sz then .error .Invalid else .ok { s with offset := off }
    | none => .ok { s with offset := off }

def Stream.read (s : Stream) (num_bytes : Nat) : InternalResult (List Nat × Stream) :=
  if num_bytes = 0 then .ok ([], s)
  else
    match s.skip num_bytes with
    | .error e => .error e
    | .ok s' =>
      match s'.data with
      | some d =>
        if s'.offset ≤ d.length then .ok ((d.drop s.offset).take num_bytes, s')
        else .error .Truncated
      | none => .error .Truncated

def Stream.read_u8 (s : Stream) : InternalResult (Nat × Stream) :=
  match s.read 1 with
  | .ok (l, s') => .ok (beVal l, s')
  | .error e => .error e

def Stream.read_u16 (s : Stream) : InternalResult (Nat × Stream) :=
  match s.read 2 with
  | .ok (l, s') => .ok (beVal l, s')
  | .error e => .error e

def Stream.read_u32 (s : Stream) : InternalResult (Nat × Stream) :=
  match s.read 4 with
  | .ok (l, s') => .ok (beVal l, s')
  | .error e => .error e

def Stream.read_u64 (s : Stream) : InternalResult (Nat × Stream) :=
  match s.read 8 with
  | .ok (l, s') => .ok (beVal l, s')
  | .error e => .error e

def Stream.read_uint (s : Stream) (num_bytes : Nat) : InternalResult (Nat × Stream) :=
  match num_bytes with
  | 1 => s.read_u8
  | 2 => s.read_u16
  | 4 => s.read_u32
  | _ => .error .Aborted

def Stream.read_u24 (s : Stream) : InternalResult (Nat × Stream) :=
  match s.read_uint 1 with
  | .error e => .error e
  | .ok (hi, s1) =>
    match s1.read_uint 2 with
    | .error e => .error e
    | .ok (lo, s2) => .ok (hi * 2 ^ 16 + lo, s2)

def Stream.read_4cc (s : Stream) : InternalResult (List Nat × Stream) := s.read 4

def Stream.num_read_bytes (s : Stream) : Nat := s.offset

def Stream.has_more_bytes (s : Stream) : Bool :=
  match s.size with
  | some sz => decide (s.offset < sz)
  | none => true

def Stream.substream (s : Stream) (num_bytes : Option Nat) : InternalResult (Stream × Stream) :=
  let offset := s.offset
  let num_transferred :=
    match num_bytes with
    | some n => n
    | none =>
      match s.data with
      | some d => d.length - offset
      | none => 0
  match s.skip num_transferred with
  | .error e => .error e
  | .ok s1 =>
    match checkedAdd offset num_transferred with
    | none => .error .Aborted
    | some off2 =>
      let child : Stream :=
        { data :=
            match s.data with
            | some d =>
              let avail := d.length - offset
              let sz := min avail num_transferred
              if sz ≠ 0 then some ((d.drop offset).take sz) else none
            | none => none
          size := num_bytes
          offset := 0 }
      .ok (child, { s1 with offset := off2 })

/-- Loop/recursion measure of a stream: remaining declared bytes when the
parent size is known, else remaining data bytes (plus the 8 bytes any
successful box-header read consumes).  Every iteration of the `while
stream.has_more_bytes()` loops of the source strictly decreases it. -/
def Stream.measure (s : Stream) : Nat :=
  match s.size with
  | some sz => sz - s.offset
  | none =>
    (match s.data with
     | some d => d.length
     | none => 0) + 8 - s.offset

/-! Four-character codes and URN constants, as raw byte lists. -/

def ftypCC : List Nat := [102, 116, 121, 112]
def metaCC : List Nat := [109, 101, 116, 97]
def pitmCC : List Nat := [112, 105, 116, 109]
def ipmaCC : List Nat := [105, 112, 109, 97]
def ispeCC : List Nat := [105, 115, 112, 101]
def pixiCC : List Nat := [112, 105, 120, 105]
def irefCC : List Nat := [105, 114, 101, 102]
def auxCCC : List Nat := [97, 117, 120, 67]
def iinfCC : List Nat := [105, 105, 110, 102]
def infeCC : List Nat := [105, 110, 102, 101]
def skipCC : List Nat := [115, 107, 105, 112]
def iprpCC : List Nat := [105, 112, 114, 112]
def ipcoCC : List Nat := [105, 112, 99, 111]
def dimgCC : List Nat := [100, 105, 109, 103]
def tmapCC : List Nat := [116, 109, 97, 112]
def avifCC : List Nat := [97, 118, 105, 102]
def avisCC : List Nat := [97, 118, 105, 115]
def av1CCC : List Nat := [97, 118, 49, 67]

/-- Bytes of `"urn:mpeg:mpegB:cicp:systems:auxiliary:alpha\0"`. -/
def ALPHA_STR : List Nat := [117, 114, 110, 58, 109, 112, 101, 103, 58, 109, 112, 101, 103, 66,
  58, 99, 105, 99, 112, 58, 115, 121, 115, 116, 101, 109, 115, 58, 97, 117, 120, 105, 108, 105,
  97, 114, 121, 58, 97, 108, 112, 104, 97, 0]

/-- Bytes of `"urn:com:photo:aux:hdrgainmap\0"`. -/
def GAINMAP_STR : List Nat := [117, 114, 110, 58, 99, 111, 109, 58, 112, 104, 111, 116, 111, 58,
  97, 117, 120, 58, 104, 100, 114, 103, 97, 105, 110, 109, 97, 112, 0]

structure InternalBox where
  box_type : List Nat
  version : Nat
  flags : Nat
  content_size : Option Nat
deriving DecidableEq

/-- The `matches!` test selecting the "full box" types. -/
def is_fullbox_type (t : List Nat) : Bool :=
  decide (t = metaCC ∨ t = pitmCC ∨ t = ipmaCC ∨ t = ispeCC ∨ t = pixiCC ∨ t = irefCC ∨
    t = auxCCC ∨ t = iinfCC ∨ t = infeCC)

/-- The `is_parsable` version table of `parse_box`. -/
def is_parsable_version (t : List Nat) (version : Nat) : Bool :=
  decide ((t = metaCC ∧ version = 0) ∨ (t = pitmCC ∧ version ≤ 1) ∨
    (t = ipmaCC ∧ version ≤ 1) ∨ (t = ispeCC ∧ version = 0) ∨ (t = pixiCC ∧ version = 0) ∨
    (t = irefCC ∧ version ≤ 1) ∨ (t = auxCCC ∧ version = 0) ∨ (t = iinfCC ∧ version ≤ 1) ∨
    (t = infeCC ∧ version ≤ 2))

/-- Everything `parse_box` does after the size/type/largesize reads:
full-box detection, `content_size` computation (`checked_sub`), the
parent-size check, the box-count guard, and the version/flags reads with
the `is_parsable` rewrite to `skip`.  Split out of `parse_box` so that its
effects can be proved once for the three size cases. -/
def parse_box_tail (nesting_level : Nat) (box_type0 : List Nat) (header_base : Nat)
    (box_size : Option Nat) (s3 : Stream) (num_parsed_boxes : Nat) :
    InternalResult (InternalBox × Stream × Nat) :=
  let has_fullbox_header := is_fullbox_type box_type0
  let box_header_size := if has_fullbox_header then header_base + 4 else header_base
  match
    (match box_size with
     | some bsz =>
       if bsz < box_header_size then .error .Invalid
       else .ok (some (bsz - box_header_size))
     | none => .ok none : InternalResult (Option Nat)) with
  | .error e => .error e
  | .ok content_size =>
    let over_parent : Bool :=
      match s3.size with
      | some psize => decide (content_size.getD box_header_size > psize - s3.offset)
      | none => false
    if over_parent then .error .Invalid
    else
      match
        (if nesting_level ≠ 0 ∨ box_type0 ≠ ftypCC then
          if num_parsed_boxes + 1 ≥ AVIFINFO_MAX_NUM_BOXES then .error .Aborted
          else .ok (num_parsed_boxes + 1)
        else .ok num_parsed_boxes : InternalResult Nat) with
      | .error e => .error e
      | .ok nb1 =>
        if has_fullbox_header then
          match s3.read_u8 with
          | .error e => .error e
          | .ok (version, s4) =>
            match s4.read_u24 with
            | .error e => .error e
            | .ok (flags, s5) =>
              let bt := if is_parsable_version box_type0 version then box_type0 else skipCC
              .ok ({ box_type := bt, version := version, flags := flags,
                     content_size := content_size }, s5, nb1)
        else
          .ok ({ box_type := box_type0, version := 0, flags := 0,
                 content_size := content_size }, s3, nb1)

/-- Model of `parse_box`: reads one box header from the start of the stream.
`u32 -> usize` and `u64 -> usize` conversions never fail on the 64-bit
targets the crate supports, so the `.or(Err(Aborted))` paths are omitted.
On error the incremented `num_parsed_boxes` is dropped, which is sound
because every `parse_box` error propagates to the public entry point
(callers only catch `NotFound`, which `parse_box` never returns). -/
def parse_box (nesting_level : Nat) (stream : Stream) (num_parsed_boxes : Nat) :
    InternalResult (InternalBox × Stream × Nat) :=
  match stream.read_u32 with
  | .error e => .error e
  | .ok (size32, s1) =>
    match s1.read_4cc with
    | .error e => .error e
    | .ok (box_type0, s2) =>
      if size32 = 1 then
        match s2.read_u64 with
        | .error e => .error e
        | .ok (size64, s3) =>
          parse_box_tail nesting_level box_type0 16 (some size64) s3 num_parsed_boxes
      else if size32 = 0 then
        if nesting_level ≠ 0 then .error .Invalid
        else parse_box_tail nesting_level box_type0 8 none s2 num_parsed_boxes
      else parse_box_tail nesting_level box_type0 8 (some size32) s2 num_parsed_boxes

/-! The feature accumulator.  The fixed-capacity arrays of the source are
modelled as lists holding exactly the first `num_*` entries; the source
never reads a slot at an index `≥ num_*`. -/

structure InternalTile where
  tile_item_id : Nat := 0
  parent_item_id : Nat := 0
  dimg_idx : Nat := 0
deriving DecidableEq

structure InternalProp where
  property_index : Nat := 0
  item_id : Nat := 0
deriving DecidableEq

structure InternalDimProp where
  property_index : Nat := 0
  width : Nat := 0
  height : Nat := 0
deriving DecidableEq

structure InternalChanProp where
  property_index : Nat := 0
  bit_depth : Nat := 0
  num_channels : Nat := 0
deriving DecidableEq

structure InternalFeatures where
  has_primary_item : Bool := false
  has_alpha : Bool := false
  gainmap_property_index : Nat := 0
  primary_item_id : Nat := 0
  primary_item_features : Features := {}
  data_was_skipped : Bool := false
  tone_mapped_item_id : Nat := 0
  iinf_parsed : Bool := false
  iref_parsed : Bool := false
  tiles : List InternalTile := []
  props : List InternalProp := []
  dim_props : List InternalDimProp := []
  chan_props : List InternalChanProp := []
deriving DecidableEq

/-- Width/height half of one iteration of the property loop in
`get_item_features`: the inner `for`-with-`break` is a first-match scan
(`List.find?`).  The returned `Bool` is true when the source executes the
early `return Ok(())`. -/
def gifDimStep (f : InternalFeatures) (target_item_id property_index : Nat) :
    InternalFeatures × Bool :=
  if target_item_id = f.primary_item_id ∧
      (f.primary_item_features.width = AVIFINFO_UNDEFINED ∨
       f.primary_item_features.height = AVIFINFO_UNDEFINED) then
    match f.dim_props.find? (fun dp => dp.property_index == property_index) with
    | some dp =>
      let f' := { f with primary_item_features :=
          { f.primary_item_features with width := dp.width, height := dp.height } }
      (f', decide (f'.primary_item_features.bit_depth ≠ AVIFINFO_UNDEFINED ∧
                   f'.primary_item_features.num_channels ≠ AVIFINFO_UNDEFINED))
    | none => (f, false)
  else (f, false)

/-- Bit-depth/channel half of one iteration of the property loop in
`get_item_features`. -/
def gifChanStep (f : InternalFeatures) (property_index : Nat) : InternalFeatures × Bool :=
  if f.primary_item_features.bit_depth = AVIFINFO_UNDEFINED ∨
      f.primary_item_features.num_channels = AVIFINFO_UNDEFINED then
    match f.chan_props.find? (fun cp => cp.property_index == property_index) with
    | some cp =>
      let f' := { f with primary_item_features :=
          { f.primary_item_features with
            bit_depth := cp.bit_depth
            num_channels := cp.num_channels } }
      (f', decide (f'.primary_item_features.width ≠ AVIFINFO_UNDEFINED ∧
                   f'.primary_item_features.height ≠ AVIFINFO_UNDEFINED))
    | none => (f, false)
  else (f, false)

/-- The `for prop_item in 0..self.num_props` loop of `get_item_features`.
The returned `Bool` is true when the source executed an early `return`. -/
def gifProps (f : InternalFeatures) (target_item_id : Nat) :
    List InternalProp → InternalFeatures × Bool
  | [] => (f, false)
  | p :: rest =>
    if p.item_id ≠ target_item_id then gifProps f target_item_id rest
    else
      match gifDimStep f target_item_id p.property_index with
      | (f1, true) => (f1, true)
      | (f1, false) =>
        match gifChanStep f1 p.property_index with
        | (f2, true) => (f2, true)
        | (f2, false) => gifProps f2 target_item_id rest

/-- The `for tile in 0..self.num_tiles` loop of `get_item_features`, with
the recursive call abstracted as `recurse`. -/
def gifTiles (recurse : InternalFeatures → Nat → InternalFeatures × InternalResult Unit)
    (target_item_id : Nat) (f : InternalFeatures) :
    List InternalTile → InternalFeatures × InternalResult Unit
  | [] => (f, .error .NotFound)
  | t :: rest =>
    if t.parent_item_id ≠ target_item_id then gifTiles recurse target_item_id f rest
    else
      match recurse f t.tile_item_id with
      | (f', .ok ()) => (f', .ok ())
      | (f', .error .NotFound) => gifTiles recurse target_item_id f' rest
      | (f', .error e) => (f', .error e)

/-- `InternalFeatures::get_item_features`, with `tile_depth` re-parameterised
as the remaining recursion budget `3 - tile_depth`: the source's guard
`tile_depth < 3` is `depth_budget > 0`, and its recursion at `tile_depth + 1`
is recursion at `depth_budget - 1`. -/
def get_item_features_aux : Nat → InternalFeatures → Nat →
    InternalFeatures × InternalResult Unit
  | depth_budget, f, target_item_id =>
    match gifProps f target_item_id f.props with
    | (f1, true) => (f1, .ok ())
    | (f1, false) =>
      match depth_budget with
      | 0 => (f1, .error .NotFound)
      | b + 1 =>
        gifTiles (fun fa tid => get_item_features_aux b fa tid) target_item_id f1 f1.tiles

def InternalFeatures.get_item_features (f : InternalFeatures)
    (target_item_id tile_depth : Nat) : InternalFeatures × InternalResult Unit :=
  get_item_features_aux (3 - tile_depth) f target_item_id

/-- The HEIF gain-map scan of `get_primary_item_features`: the
`for tile in 0..self.num_tiles` loop with `break`, i.e. a first-match scan. -/
def heif_scan (f : InternalFeatures) : InternalFeatures :=
  if f.tone_mapped_item_id ≠ AVIFINFO_UNDEFINED then
    match f.tiles.find? (fun t =>
        t.parent_item_id == f.tone_mapped_item_id && t.dimg_idx == 1) with
    | some t =>
      { f with primary_item_features := { f.primary_item_features with
          has_gainmap := true, gainmap_item_id := t.tile_item_id } }
    | none => f
  else f

/-- The Adobe gain-map scan of `get_primary_item_features`: the
`for prop_item in 0..self.num_props` loop with `break`. -/
def adobe_scan (f1 : InternalFeatures) : InternalFeatures :=
  if !f1.primary_item_features.has_gainmap ∧ f1.gainmap_property_index > 0 then
    match f1.props.find? (fun p => p.property_index == f1.gainmap_property_index) with
    | some p =>
      { f1 with primary_item_features := { f1.primary_item_features with
          has_gainmap := true, gainmap_item_id := p.item_id } }
    | none => f1
  else f1

/-- `InternalFeatures::get_primary_item_features` (the resolver). -/
def InternalFeatures.get_primary_item_features (f : InternalFeatures) :
    InternalFeatures × InternalResult Unit :=
  if !f.has_primary_item then (f, .error .NotFound)
  else if f.dim_props.length = 0 ∨ f.chan_props.length = 0 then (f, .error .NotFound)
  else
    let f2 := adobe_scan (heif_scan f)
    if !f2.primary_item_features.has_gainmap ∧
        (!f2.iinf_parsed ∨ (f2.tone_mapped_item_id ≠ AVIFINFO_UNDEFINED ∧ !f2.iref_parsed)) then
      (f2, .error .NotFound)
    else
      match f2.get_item_features f2.primary_item_id 0 with
      | (f3, .ok ()) =>
        if f3.has_alpha then
          ({ f3 with primary_item_features := { f3.primary_item_features with
              num_channels := f3.primary_item_features.num_channels + 1 } }, .ok ())
        else (f3, .ok ())
      | (f3, .error e) => (f3, .error e)

/-! Per-box parsers.  Each `while stream.has_more_bytes()` loop is written
as a fuel-indexed helper; the wrapper passes `s.measure + 1` fuel, which is
shown sufficient below (every iteration strictly decreases the measure, so
the out-of-fuel branch is unreachable from the wrappers). -/

/-- The `for _ in 1..num_channels` depth-equality loop of the `pixi` branch,
called with `num_channels - 1` remaining iterations. -/
def pixiExtra (bs : Stream) (bit_depth : Nat) : Nat → InternalResult Stream
  | 0 => .ok bs
  | k + 1 =>
    match bs.read_u8 with
    | .error e => .error e
    | .ok (b, bs1) => if b ≠ bit_depth then .error .Invalid else pixiExtra bs1 bit_depth k

/-- Body of one iteration of the `parse_ipco` loop: the `match` on the box
type.  In the `auxC` branch the source calls `content_size.unwrap()`; it is
modelled by `Option.getD 0`, and `parse_box_some_content` below shows the
`none` case is unreachable (`parse_ipco` is only called at nonzero nesting
levels). -/
def ipco_process_box (f : InternalFeatures) (bf : InternalBox) (bs : Stream)
    (box_index : Nat) : InternalFeatures × InternalResult Unit :=
  if bf.box_type = ispeCC then
    match bs.read_u32 with
    | .error e => (f, .error e)
    | .ok (width, bs1) =>
      match bs1.read_u32 with
      | .error e => (f, .error e)
      | .ok (height, _) =>
        if width = 0 ∨ height = 0 then (f, .error .Invalid)
        else if f.dim_props.length < AVIFINFO_MAX_FEATURES then
          ({ f with dim_props := f.dim_props ++
              [{ property_index := box_index, width := width, height := height }] }, .ok ())
        else ({ f with data_was_skipped := true }, .ok ())
  else if bf.box_type = pixiCC then
    match bs.read_u8 with
    | .error e => (f, .error e)
    | .ok (num_channels, bs1) =>
      if num_channels = 0 ∨ num_channels > 3 then (f, .error .Invalid)
      else
        match bs1.read_u8 with
        | .error e => (f, .error e)
        | .ok (bit_depth, bs2) =>
          if bit_depth = 0 then (f, .error .Invalid)
          else
            match pixiExtra bs2 bit_depth (num_channels - 1) with
            | .error e => (f, .error e)
            | .ok _ =>
              if f.chan_props.length < AVIFINFO_MAX_FEATURES then
                ({ f with chan_props := f.chan_props ++
                    [{ property_index := box_index, bit_depth := bit_depth,
                       num_channels := num_channels }] }, .ok ())
              else ({ f with data_was_skipped := true }, .ok ())
  else if bf.box_type = av1CCC then
    match bs.skip 2 with
    | .error e => (f, .error e)
    | .ok bs1 =>
      match bs1.read_u8 with
      | .error e => (f, .error e)
      | .ok (d, _) =>
        let high_bitdepth := d &&& 64 ≠ 0
        let twelve_bit := d &&& 32 ≠ 0
        let monochrome := d &&& 16 ≠ 0
        if twelve_bit ∧ ¬ high_bitdepth then (f, .error .Invalid)
        else if f.chan_props.length < AVIFINFO_MAX_FEATURES then
          ({ f with chan_props := f.chan_props ++
              [{ property_index := box_index,
                 bit_depth := if high_bitdepth then (if twelve_bit then 12 else 10) else 8,
                 num_channels := if monochrome then 1 else 3 }] }, .ok ())
        else ({ f with data_was_skipped := true }, .ok ())
  else if bf.box_type = auxCCC then
    let content_size := bf.content_size.getD 0
    match bs.read (min content_size ALPHA_STR.length) with
    | .error e => (f, .error e)
    | .ok (d, _) =>
      if d.take ALPHA_STR.length = ALPHA_STR then ({ f with has_alpha := true }, .ok ())
      else if d.take GAINMAP_STR.length = GAINMAP_STR then
        ({ f with gainmap_property_index := box_index }, .ok ())
      else (f, .ok ())
  else (f, .ok ())

/-- The `while stream.has_more_bytes()` loop of `parse_ipco`. -/
def parse_ipcoLoop (fuel : Nat) (f : InternalFeatures) (nesting_level : Nat) (s : Stream)
    (num_parsed_boxes box_index : Nat) : InternalFeatures × Nat × InternalResult Unit :=
  match fuel with
  | 0 => (f, num_parsed_boxes, .error .Aborted)
  | fuel + 1 =>
    if s.has_more_bytes then
      match parse_box nesting_level s num_parsed_boxes with
      | .error e => (f, num_parsed_boxes, .error e)
      | .ok (bf, s1, nb1) =>
        match s1.substream bf.content_size with
        | .error e => (f, nb1, .error e)
        | .ok (bs, s2) =>
          match ipco_process_box f bf bs box_index with
          | (f1, .error e) => (f1, nb1, .error e)
          | (f1, .ok ()) =>
            if box_index = AVIFINFO_MAX_VALUE then
              ({ f1 with data_was_skipped := true }, nb1, .error .NotFound)
            else parse_ipcoLoop fuel f1 nesting_level s2 nb1 (box_index + 1)
    else (f, num_parsed_boxes, .error .NotFound)

def InternalFeatures.parse_ipco (f : InternalFeatures) (nesting_level : Nat) (s : Stream)
    (num_parsed_boxes : Nat) : InternalFeatures × Nat × InternalResult Unit :=
  parse_ipcoLoop (s.measure + 1) f nesting_level s num_parsed_boxes 1

/-- The inner `while property < association_count` loop of the `ipma`
branch.  The returned `Bool` says whether the loop exited with
`property < association_count` (which makes the outer entry loop `break`). -/
def ipmaAssoc (f : InternalFeatures) (bs : Stream)
    (item_id index_num_bytes essential_bit_mask : Nat) :
    Nat → Nat → InternalFeatures × InternalResult (Stream × Bool)
  | _, 0 => (f, .ok (bs, false))
  | property, remaining + 1 =>
    if property ≥ AVIFINFO_MAX_PROPS ∨ f.props.length ≥ AVIFINFO_MAX_PROPS then
      ({ f with data_was_skipped := true }, .ok (bs, true))
    else
      match bs.read_uint index_num_bytes with
      | .error e => (f, .error e)
      | .ok (value, bs1) =>
        let property_index := value &&& (4294967295 - essential_bit_mask)
        let f1 :=
          if property_index ≤ AVIFINFO_MAX_VALUE ∧ item_id ≤ AVIFINFO_MAX_VALUE then
            { f with props := f.props ++
                [{ property_index := property_index, item_id := item_id }] }
          else { f with data_was_skipped := true }
        ipmaAssoc f1 bs1 item_id index_num_bytes essential_bit_mask (property + 1) remaining

/-- The `for entry in 0..entry_count` loop of the `ipma` branch. -/
def ipmaEntries (f : InternalFeatures) (bs : Stream)
    (id_num_bytes index_num_bytes essential_bit_mask : Nat) :
    Nat → Nat → InternalFeatures × InternalResult Unit
  | _, 0 => (f, .ok ())
  | entry, remaining + 1 =>
    if entry ≥ AVIFINFO_MAX_PROPS ∨ f.props.length ≥ AVIFINFO_MAX_PROPS then
      ({ f with data_was_skipped := true }, .ok ())
    else
      match bs.read_uint id_num_bytes with
      | .error e => (f, .error e)
      | .ok (item_id, bs1) =>
        match bs1.read_u8 with
        | .error e => (f, .error e)
        | .ok (association_count, bs2) =>
          match ipmaAssoc f bs2 item_id index_num_bytes essential_bit_mask 0
              association_count with
          | (f1, .error e) => (f1, .error e)
          | (f1, .ok (bs3, early)) =>
            if early then (f1, .ok ())
            else ipmaEntries f1 bs3 id_num_bytes index_num_bytes essential_bit_mask
                (entry + 1) remaining

/-- The `while stream.has_more_bytes()` loop of `parse_iprp`. -/
def parse_iprpLoop (fuel : Nat) (f : InternalFeatures) (nesting_level : Nat) (s : Stream)
    (num_parsed_boxes : Nat) : InternalFeatures × Nat × InternalResult Unit :=
  match fuel with
  | 0 => (f, num_parsed_boxes, .error .Aborted)
  | fuel + 1 =>
    if s.has_more_bytes then
      match parse_box nesting_level s num_parsed_boxes with
      | .error e => (f, num_parsed_boxes, .error e)
      | .ok (bf, s1, nb1) =>
        match s1.substream bf.content_size with
        | .error e => (f, nb1, .error e)
        | .ok (bs, s2) =>
          if bf.box_type = ipcoCC then
            match f.parse_ipco (nesting_level + 1) bs nb1 with
            | (f1, nb2, .ok ()) => (f1, nb2, .ok ())
            | (f1, nb2, .error .NotFound) => parse_iprpLoop fuel f1 nesting_level s2 nb2
            | (f1, nb2, .error e) => (f1, nb2, .error e)
          else if bf.box_type = ipmaCC then
            match bs.read_u32 with
            | .error e => (f, nb1, .error e)
            | .ok (entry_count, bs1) =>
              let id_num_bytes := if bf.version < 1 then 2 else 4
              let index_num_bytes := if bf.flags &&& 1 ≠ 0 then 2 else 1
              let essential_bit_mask := if bf.flags &&& 1 ≠ 0 then 32768 else 128
              match ipmaEntries f bs1 id_num_bytes index_num_bytes essential_bit_mask 0
                  entry_count with
              | (f1, .error e) => (f1, nb1, .error e)
              | (f1, .ok ()) =>
                match f1.get_primary_item_features with
                | (f2, .ok ()) => (f2, nb1, .ok ())
                | (f2, .error .NotFound) => parse_iprpLoop fuel f2 nesting_level s2 nb1
                | (f2, .error e) => (f2, nb1, .error e)
          else parse_iprpLoop fuel f nesting_level s2 nb1
    else (f, num_parsed_boxes, .error .NotFound)

def InternalFeatures.parse_iprp (f : InternalFeatures) (nesting_level : Nat) (s : Stream)
    (num_parsed_boxes : Nat) : InternalFeatures × Nat × InternalResult Unit :=
  parse_iprpLoop (s.measure + 1) f nesting_level s num_parsed_boxes

/-- The `for i in 0..reference_count` loop of the `dimg` branch of
`parse_iref`. -/
def irefRefs (f : InternalFeatures) (bs : Stream) (from_item_id num_bytes_per_id : Nat) :
    Nat → Nat → InternalFeatures × InternalResult Unit
  | _, 0 => (f, .ok ())
  | i, remaining + 1 =>
    if i ≥ AVIFINFO_MAX_TILES then ({ f with data_was_skipped := true }, .ok ())
    else
      match bs.read_uint num_bytes_per_id with
      | .error e => (f, .error e)
      | .ok (to_item_id, bs1) =>
        let f1 :=
          if from_item_id ≤ AVIFINFO_MAX_VALUE ∧ to_item_id ≤ AVIFINFO_MAX_VALUE ∧
              f.tiles.length < AVIFINFO_MAX_TILES then
            { f with tiles := f.tiles ++
                [{ tile_item_id := to_item_id, parent_item_id := from_item_id,
                   dimg_idx := i }] }
          else { f with data_was_skipped := true }
        irefRefs f1 bs1 from_item_id num_bytes_per_id (i + 1) remaining

/-- The `while stream.has_more_bytes()` loop of `parse_iref`. -/
def parse_irefLoop (fuel : Nat) (f : InternalFeatures) (nesting_level : Nat) (s : Stream)
    (num_parsed_boxes : Nat) : InternalFeatures × Nat × InternalResult Unit :=
  match fuel with
  | 0 => (f, num_parsed_boxes, .error .Aborted)
  | fuel + 1 =>
    if s.has_more_bytes then
      match parse_box nesting_level s num_parsed_boxes with
      | .error e => (f, num_parsed_boxes, .error e)
      | .ok (bf, s1, nb1) =>
        match s1.substream bf.content_size with
        | .error e => (f, nb1, .error e)
        | .ok (bs, s2) =>
          if bf.box_type = dimgCC then
            let num_bytes_per_id := if bf.version = 0 then 2 else 4
            match bs.read_uint num_bytes_per_id with
            | .error e => (f, nb1, .error e)
            | .ok (from_item_id, bs1') =>
              match bs1'.read_u16 with
              | .error e => (f, nb1, .error e)
              | .ok (reference_count, bs2') =>
                match irefRefs f bs2' from_item_id num_bytes_per_id 0 reference_count with
                | (f1, .error e) => (f1, nb1, .error e)
                | (f1, .ok ()) =>
                  match f1.get_primary_item_features with
                  | (f2, .ok ()) => (f2, nb1, .ok ())
                  | (f2, .error .NotFound) => parse_irefLoop fuel f2 nesting_level s2 nb1
                  | (f2, .error e) => (f2, nb1, .error e)
          else parse_irefLoop fuel f nesting_level s2 nb1
    else (f, num_parsed_boxes, .error .NotFound)

def InternalFeatures.parse_iref (f : InternalFeatures) (nesting_level : Nat) (s : Stream)
    (num_parsed_boxes : Nat) : InternalFeatures × Nat × InternalResult Unit :=
  parse_irefLoop (s.measure + 1) { f with iref_parsed := true } nesting_level s
    num_parsed_boxes

/-- The `for _ in 0..entry_count` loop of `parse_iinf`. -/
def iinfEntries (f : InternalFeatures) (nesting_level : Nat) (s : Stream)
    (num_parsed_boxes : Nat) : Nat → InternalFeatures × Nat × InternalResult Unit
  | 0 => (f, num_parsed_boxes, .error .NotFound)
  | remaining + 1 =>
    match parse_box nesting_level s num_parsed_boxes with
    | .error e => (f, num_parsed_boxes, .error e)
    | .ok (bf, s1, nb1) =>
      match s1.substream bf.content_size with
      | .error e => (f, nb1, .error e)
      | .ok (bs, s2) =>
        match
          (if bf.box_type = infeCC then
            let num_bytes_per_id := if bf.version = 2 then 2 else 4
            match bs.read_uint num_bytes_per_id with
            | .error e => .error e
            | .ok (item_id, bsa) =>
              match bsa.skip 2 with
              | .error e => .error e
              | .ok bsb =>
                match bsb.read_4cc with
                | .error e => .error e
                | .ok (item_type, _) =>
                  if item_type = tmapCC then
                    if item_id ≤ AVIFINFO_MAX_VALUE then
                      .ok { f with tone_mapped_item_id := item_id }
                    else .ok { f with data_was_skipped := true }
                  else .ok f
          else .ok f : InternalResult InternalFeatures) with
        | .error e => (f, nb1, .error e)
        | .ok f1 =>
          if !s2.has_more_bytes then (f1, nb1, .error .NotFound)
          else iinfEntries f1 nesting_level s2 nb1 remaining

def InternalFeatures.parse_iinf (f : InternalFeatures) (nesting_level : Nat) (s : Stream)
    (box_version num_parsed_boxes : Nat) : InternalFeatures × Nat × InternalResult Unit :=
  let f1 := { f with iinf_parsed := true }
  let num_bytes_per_entry_count := if box_version = 0 then 2 else 4
  match s.read_uint num_bytes_per_entry_count with
  | .error e => (f1, num_parsed_boxes, .error e)
  | .ok (entry_count, s1) => iinfEntries f1 nesting_level s1 num_parsed_boxes entry_count

/-- The `while stream.has_more_bytes()` loop of `parse_meta`. -/
def parse_metaLoop (fuel : Nat) (f : InternalFeatures) (nesting_level stream_offset : Nat)
    (s : Stream) (num_parsed_boxes : Nat) : InternalFeatures × Nat × InternalResult Unit :=
  match fuel with
  | 0 => (f, num_parsed_boxes, .error .Aborted)
  | fuel + 1 =>
    if s.has_more_bytes then
      match parse_box nesting_level s num_parsed_boxes with
      | .error e => (f, num_parsed_boxes, .error e)
      | .ok (bf, s1, nb1) =>
        let box_header_size := s1.num_read_bytes
        match s1.substream bf.content_size with
        | .error e => (f, nb1, .error e)
        | .ok (bs, s2) =>
          if bf.box_type = pitmCC then
            let num_bytes_per_id := if bf.version = 0 then 2 else 4
            match checkedAdd stream_offset box_header_size with
            | none => (f, nb1, .error .Aborted)
            | some primary_item_id_location =>
              match bs.read_uint num_bytes_per_id with
              | .error e => (f, nb1, .error e)
              | .ok (primary_item_id, _) =>
                if primary_item_id > AVIFINFO_MAX_VALUE then (f, nb1, .error .Aborted)
                else
                  let f1 := { f with
                    has_primary_item := true
                    primary_item_id := primary_item_id
                    primary_item_features := { f.primary_item_features with
                      primary_item_id_location := primary_item_id_location
                      primary_item_id_bytes := num_bytes_per_id } }
                  parse_metaLoop fuel f1 nesting_level stream_offset s2 nb1
          else if bf.box_type = iprpCC then
            match f.parse_iprp (nesting_level + 1) bs nb1 with
            | (f1, nb2, .ok ()) => (f1, nb2, .ok ())
            | (f1, nb2, .error .NotFound) =>
              parse_metaLoop fuel f1 nesting_level stream_offset s2 nb2
            | (f1, nb2, .error e) => (f1, nb2, .error e)
          else if bf.box_type = irefCC then
            match f.parse_iref (nesting_level + 1) bs nb1 with
            | (f1, nb2, .ok ()) => (f1, nb2, .ok ())
            | (f1, nb2, .error .NotFound) =>
              parse_metaLoop fuel f1 nesting_level stream_offset s2 nb2
            | (f1, nb2, .error e) => (f1, nb2, .error e)
          else if bf.box_type = iinfCC then
            match f.parse_iinf (nesting_level + 1) bs bf.version nb1 with
            | (f1, nb2, .ok ()) => (f1, nb2, .ok ())
            | (f1, nb2, .error .NotFound) =>
              parse_metaLoop fuel f1 nesting_level stream_offset s2 nb2
            | (f1, nb2, .error e) => (f1, nb2, .error e)
          else parse_metaLoop fuel f nesting_level stream_offset s2 nb1
    else (f, num_parsed_boxes,
      .error (if f.data_was_skipped then .Aborted else .Invalid))

def InternalFeatures.parse_meta (f : InternalFeatures) (nesting_level stream_offset : Nat)
    (s : Stream) (num_parsed_boxes : Nat) : InternalFeatures × Nat × InternalResult Unit :=
  parse_metaLoop (s.measure + 1) f nesting_level stream_offset s num_parsed_boxes

/-- The top-level `loop` of `InternalFeatures::parse_file`. -/
def parse_fileLoop (fuel : Nat) (f : InternalFeatures) (s : Stream)
    (num_parsed_boxes : Nat) : InternalFeatures × Nat × InternalResult Unit :=
  match fuel with
  | 0 => (f, num_parsed_boxes, .error .Aborted)
  | fuel + 1 =>
    match parse_box 0 s num_parsed_boxes with
    | .error e => (f, num_parsed_boxes, .error e)
    | .ok (bf, s1, nb1) =>
      let offset := s1.num_read_bytes
      match s1.substream bf.content_size with
      | .error e => (f, nb1, .error e)
      | .ok (bs, s2) =>
        if bf.box_type = metaCC then f.parse_meta 1 offset bs nb1
        else if bf.content_size = none then (f, nb1, .error .Invalid)
        else parse_fileLoop fuel f s2 nb1

def InternalFeatures.parse_file (f : InternalFeatures) (s : Stream) :
    InternalFeatures × Nat × InternalResult Unit :=
  parse_fileLoop (s.measure + 1) f s 0

/-- The `for i in 0..content_size / 4` brand loop of `parse_ftyp`, called
with `content_size / 4` remaining iterations. -/
def ftypLoop (stream : Stream) (content_size : Nat) : Nat → Nat → InternalResult Unit
  | _, 0 => .error .Invalid
  | i, remaining + 1 =>
    match stream.read_4cc with
    | .error e => .error e
    | .ok (brand, s1) =>
      if i = 1 then ftypLoop s1 content_size (i + 1) remaining
      else if brand = avifCC ∨ brand = avisCC then
        match s1.skip (content_size - (i * 4 + 4)) with
        | .error e => .error e
        | .ok _ => .ok ()
      else if i > 32 then .error .Aborted
      else ftypLoop s1 content_size (i + 1) remaining

def parse_ftyp (stream : Stream) : InternalResult Unit :=
  match parse_box 0 stream 0 with
  | .error e => .error e
  | .ok (bf, s1, _) =>
    if bf.box_type ≠ ftypCC then .error .Invalid
    else
      match bf.content_size with
      | none => .error .Invalid
      | some content_size =>
        if content_size < 8 then .error .Invalid
        else ftypLoop s1 content_size 0 (content_size / 4)

/-! Public API. -/

def identify (data : List Nat) : Except AvifInfoError Unit :=
  match parse_ftyp { data := some data, size := none, offset := 0 } with
  | .ok () => .ok ()
  | .error e => .error (internalToPublic e)

/-- `get_features` together with the final accumulator state and box count
(the source discards these; claims about recorded internal values are
stated over this function). -/
def get_featuresFull (data : List Nat) : InternalFeatures × Nat × InternalResult Unit :=
  InternalFeatures.parse_file {} { data := some data, size := none, offset := 0 }

def get_features (data : List Nat) : Except AvifInfoError Features :=
  match get_featuresFull data with
  | (f, _, .ok ()) => .ok f.primary_item_features
  | (_, _, .error e) => .error (internalToPublic e)

/-! Basic lemmas about the stream operations. -/

theorem Stream.skip_ok {s s' : Stream} {n : Nat} (h : s.skip n = .ok s') :
    s'.data = s.data ∧ s'.size = s.size ∧ s'.offset = s.offset + n ∧
    s.offset + n ≤ USIZE_MAX ∧ (∀ sz, s.size = some sz → s.offset + n ≤ sz) := by
  unfold Stream.skip checkedAdd at h
  by_cases hm : s.offset + n ≤ USIZE_MAX
  · rw [if_pos hm] at h
    dsimp only at h
    cases hsz : s.size with
    | some sz =>
      rw [hsz] at h
      dsimp only at h
      by_cases hgt : s.offset + n > sz
      · rw [if_pos hgt] at h; cases h
      · rw [if_neg hgt] at h
        cases h
        exact ⟨rfl, rfl, rfl, hm, fun sz' h' => by injection h' with hh; subst hh; omega⟩
    | none =>
      rw [hsz] at h
      dsimp only at h
      cases h
      exact ⟨rfl, rfl, rfl, hm, fun sz' h' => Option.noConfusion h'⟩
  · rw [if_neg hm] at h; cases h

theorem Stream.skip_ok_of {s : Stream} {n : Nat} (hm : s.offset + n ≤ USIZE_MAX)
    (hsz : ∀ sz, s.size = some sz → s.offset + n ≤ sz) :
    s.skip n = .ok { s with offset := s.offset + n } := by
  unfold Stream.skip checkedAdd
  rw [if_pos hm]
  dsimp only
  cases h : s.size with
  | some sz =>
    dsimp only
    rw [if_neg (by exact not_lt.mpr (hsz sz h))]
  | none => rfl

theorem Stream.read_ok {s s' : Stream} {n : Nat} {l : List Nat} (h : s.read n = .ok (l, s')) :
    s'.data = s.data ∧ s'.size = s.size ∧ s'.offset = s.offset + n ∧ l.length = n ∧
    (n ≠ 0 → s.offset + n ≤ USIZE_MAX ∧ (∀ sz, s.size = some sz → s.offset + n ≤ sz) ∧
      ∃ d, s.data = some d ∧ s.offset + n ≤ d.length ∧ l = (d.drop s.offset).take n) := by
  unfold Stream.read at h
  by_cases hn : n = 0
  · rw [if_pos hn] at h
    cases h
    subst hn
    exact ⟨rfl, rfl, rfl, rfl, fun hc => absurd rfl hc⟩
  · rw [if_neg hn] at h
    cases hskip : s.skip n with
    | error e => rw [hskip] at h; cases h
    | ok st =>
      rw [hskip] at h; dsimp only at h
      obtain ⟨hd, hsz, hoff, hmax, hszb⟩ := Stream.skip_ok hskip
      cases hdata : st.data with
      | none => rw [hdata] at h; cases h
      | some d =>
        rw [hdata] at h; dsimp only at h
        by_cases hle : st.offset ≤ d.length
        · rw [if_pos hle] at h; cases h
          refine ⟨hd, hsz, hoff, ?_, fun _ => ⟨hmax, hszb, d, ?_, by omega, rfl⟩⟩
          · simp only [List.length_take, List.length_drop]; omega
          · rw [← hd]; exact hdata
        · rw [if_neg hle] at h; cases h

theorem Stream.read_u8_ok {s s' : Stream} {v : Nat} (h : s.read_u8 = .ok (v, s')) :
    s'.data = s.data ∧ s'.size = s.size ∧ s'.offset = s.offset + 1 ∧
    s.offset + 1 ≤ USIZE_MAX ∧ (∀ sz, s.size = some sz → s.offset + 1 ≤ sz) ∧
    ∃ d, s.data = some d ∧ s.offset + 1 ≤ d.length ∧ v = sliceBE d s.offset 1 := by
  unfold Stream.read_u8 at h
  cases hr : s.read 1 with
  | error e => rw [hr] at h; cases h
  | ok p =>
    obtain ⟨l, t⟩ := p
    rw [hr] at h; dsimp only at h; cases h
    obtain ⟨hd, hsz, hoff, hlen, hrest⟩ := Stream.read_ok hr
    obtain ⟨hmax, hszb, d, hd', hle, hl⟩ := hrest (by omega)
    exact ⟨hd, hsz, hoff, hmax, hszb, d, hd', hle, by rw [hl]; rfl⟩

theorem Stream.read_u16_ok {s s' : Stream} {v : Nat} (h : s.read_u16 = .ok (v, s')) :
    s'.data = s.data ∧ s'.size = s.size ∧ s'.offset = s.offset + 2 ∧
    s.offset + 2 ≤ USIZE_MAX ∧ (∀ sz, s.size = some sz → s.offset + 2 ≤ sz) ∧
    ∃ d, s.data = some d ∧ s.offset + 2 ≤ d.length ∧ v = sliceBE d s.offset 2 := by
  unfold Stream.read_u16 at h
  cases hr : s.read 2 with
  | error e => rw [hr] at h; cases h
  | ok p =>
    obtain ⟨l, t⟩ := p
    rw [hr] at h; dsimp only at h; cases h
    obtain ⟨hd, hsz, hoff, hlen, hrest⟩ := Stream.read_ok hr
    obtain ⟨hmax, hszb, d, hd', hle, hl⟩ := hrest (by omega)
    exact ⟨hd, hsz, hoff, hmax, hszb, d, hd', hle, by rw [hl]; rfl⟩

theorem Stream.read_u32_ok {s s' : Stream} {v : Nat} (h : s.read_u32 = .ok (v, s')) :
    s'.data = s.data ∧ s'.size = s.size ∧ s'.offset = s.offset + 4 ∧
    s.offset + 4 ≤ USIZE_MAX ∧ (∀ sz, s.size = some sz → s.offset + 4 ≤ sz) ∧
    ∃ d, s.data = some d ∧ s.offset + 4 ≤ d.length ∧ v = sliceBE d s.offset 4 := by
  unfold Stream.read_u32 at h
  cases hr : s.read 4 with
  | error e => rw [hr] at h; cases h
  | ok p =>
    obtain ⟨l, t⟩ := p
    rw [hr] at h; dsimp only at h; cases h
    obtain ⟨hd, hsz, hoff, hlen, hrest⟩ := Stream.read_ok hr
    obtain ⟨hmax, hszb, d, hd', hle, hl⟩ := hrest (by omega)
    exact ⟨hd, hsz, hoff, hmax, hszb, d, hd', hle, by rw [hl]; rfl⟩

theorem Stream.read_u64_ok {s s' : Stream} {v : Nat} (h : s.read_u64 = .ok (v, s')) :
    s'.data = s.data ∧ s'.size = s.size ∧ s'.offset = s.offset + 8 ∧
    s.offset + 8 ≤ USIZE_MAX ∧ (∀ sz, s.size = some sz → s.offset + 8 ≤ sz) ∧
    ∃ d, s.data = some d ∧ s.offset + 8 ≤ d.length ∧ v = sliceBE d s.offset 8 := by
  unfold Stream.read_u64 at h
  cases hr : s.read 8 with
  | error e => rw [hr] at h; cases h
  | ok p =>
    obtain ⟨l, t⟩ := p
    rw [hr] at h; dsimp only at h; cases h
    obtain ⟨hd, hsz, hoff, hlen, hrest⟩ := Stream.read_ok hr
    obtain ⟨hmax, hszb, d, hd', hle, hl⟩ := hrest (by omega)
    exact ⟨hd, hsz, hoff, hmax, hszb, d, hd', hle, by rw [hl]; rfl⟩

theorem Stream.read_uint_ok {s s' : Stream} {v k : Nat} (h : s.read_uint k = .ok (v, s')) :
    (k = 1 ∨ k = 2 ∨ k = 4) ∧ s'.data = s.data ∧ s'.size = s.size ∧ s'.offset = s.offset + k ∧
    s.offset + k ≤ USIZE_MAX ∧ (∀ sz, s.size = some sz → s.offset + k ≤ sz) ∧
    ∃ d, s.data = some d ∧ s.offset + k ≤ d.length ∧ v = sliceBE d s.offset k := by
  match k with
  | 1 =>
    obtain ⟨h1, h2, h3, h4, h5, h6⟩ := Stream.read_u8_ok h
    exact ⟨Or.inl rfl, h1, h2, h3, h4, h5, h6⟩
  | 2 =>
    obtain ⟨h1, h2, h3, h4, h5, h6⟩ := Stream.read_u16_ok h
    exact ⟨Or.inr (Or.inl rfl), h1, h2, h3, h4, h5, h6⟩
  | 4 =>
    obtain ⟨h1, h2, h3, h4, h5, h6⟩ := Stream.read_u32_ok h
    exact ⟨Or.inr (Or.inr rfl), h1, h2, h3, h4, h5, h6⟩
  | 0 => exact absurd h (by simp [Stream.read_uint])
  | 3 => exact absurd h (by simp [Stream.read_uint])
  | n + 5 => exact absurd h (by simp [Stream.read_uint])

theorem Stream.read_u24_ok {s s' : Stream} {v : Nat} (h : s.read_u24 = .ok (v, s')) :
    s'.data = s.data ∧ s'.size = s.size ∧ s'.offset = s.offset + 3 ∧
    (∀ sz, s.size = some sz → s.offset + 3 ≤ sz) ∧
    ∃ d, s.data = some d ∧ s.offset + 3 ≤ d.length := by
  unfold Stream.read_u24 at h
  cases h1 : s.read_uint 1 with
  | error e => rw [h1] at h; cases h
  | ok p =>
    obtain ⟨hi, s1⟩ := p
    rw [h1] at h; dsimp only at h
    cases h2 : s1.read_uint 2 with
    | error e => rw [h2] at h; cases h
    | ok q =>
      obtain ⟨lo, s2⟩ := q
      rw [h2] at h; dsimp only at h; cases h
      obtain ⟨_, ha1, ha2, ha3, _, ha5, d, hd, hdl, _⟩ := Stream.read_uint_ok h1
      obtain ⟨_, hb1, hb2, hb3, _, hb5, d', hd', hdl', _⟩ := Stream.read_uint_ok h2
      refine ⟨by rw [hb1, ha1], by rw [hb2, ha2], by omega, ?_, d, hd, ?_⟩
      · intro sz hsz
        have := hb5 sz (by rw [ha2]; exact hsz)
        omega
      · rw [ha1] at hd'
        rw [hd] at hd'
        injection hd' with hh
        subst hh
        omega

theorem Stream.read_4cc_ok {s s' : Stream} {l : List Nat} (h : s.read_4cc = .ok (l, s')) :
    s'.data = s.data ∧ s'.size = s.size ∧ s'.offset = s.offset + 4 ∧ l.length = 4 ∧
    s.offset + 4 ≤ USIZE_MAX ∧ (∀ sz, s.size = some sz → s.offset + 4 ≤ sz) ∧
    ∃ d, s.data = some d ∧ s.offset + 4 ≤ d.length ∧ l = (d.drop s.offset).take 4 := by
  obtain ⟨h1, h2, h3, h4, h5⟩ := Stream.read_ok h
  obtain ⟨h5a, h5b, h5c⟩ := h5 (by omega)
  exact ⟨h1, h2, h3, h4, h5a, h5b, h5c⟩

theorem Stream.substream_ok {s c s' : Stream} {nb : Option Nat}
    (h : s.substream nb = .ok (c, s')) :
    s'.data = s.data ∧ s'.size = s.size ∧ s.offset ≤ s'.offset ∧
    (∀ sz, s.size = some sz → s'.offset ≤ sz) ∧
    c.offset = 0 ∧ c.size = nb ∧
    (∀ w, c.data = some w → ∃ d, s.data = some d ∧ s.offset + w.length ≤ d.length ∧
      w = (d.drop s.offset).take w.length ∧ w.length ≠ 0) := by
  unfold Stream.substream at h
  dsimp only at h
  obtain ⟨nt, hnt⟩ : ∃ nt, (match nb with
    | some n => n
    | none =>
      match s.data with
      | some d => d.length - s.offset
      | none => 0) = nt := ⟨_, rfl⟩
  rw [hnt] at h
  cases hskip : s.skip nt with
  | error e => rw [hskip] at h; cases h
  | ok s1 =>
    rw [hskip] at h
    dsimp only at h
    unfold checkedAdd at h
    by_cases hc : s.offset + nt ≤ USIZE_MAX
    · rw [if_pos hc] at h
      dsimp only at h
      cases h
      obtain ⟨hd, hsz, hoff, hmax, hszb⟩ := Stream.skip_ok hskip
      refine ⟨hd, hsz, Nat.le_add_right _ _, fun sz hs => hszb sz hs, rfl, rfl, ?_⟩
      intro w hw
      cases hdata : s.data with
      | none => rw [hdata] at hw; cases hw
      | some d =>
        rw [hdata] at hw
        dsimp only at hw
        split at hw
        · rename_i hnz
          injection hw with hww
          subst hww
          have hlen : ((d.drop s.offset).take (min (d.length - s.offset) nt)).length =
              min (d.length - s.offset) nt := by
            simp only [List.length_take, List.length_drop]
            omega
          refine ⟨d, rfl, ?_, ?_, ?_⟩
          · rw [hlen]; omega
          · rw [hlen]
          · rw [hlen]; omega
        · cases hw
    · rw [if_neg hc] at h
      dsimp only at h
      cases h

theorem parse_box_tail_ok {nl : Nat} {bt0 : List Nat} {hdr : Nat} {bsz : Option Nat}
    {s3 s' : Stream} {nb nb' : Nat} {b : InternalBox}
    (h : parse_box_tail nl bt0 hdr bsz s3 nb = .ok (b, s', nb')) :
    s'.data = s3.data ∧ s'.size = s3.size ∧ s3.offset ≤ s'.offset ∧
    (∀ sz, s3.size = some sz → s3.offset ≤ sz → s'.offset ≤ sz) ∧
    (b.content_size.isSome ↔ bsz.isSome) ∧
    ((nl = 0 ∧ bt0 = ftypCC) → nb' = nb) ∧
    ((nl ≠ 0 ∨ bt0 ≠ ftypCC) → nb' = nb + 1 ∧ nb + 1 < AVIFINFO_MAX_NUM_BOXES) ∧
    (b.box_type = bt0 ∨ (b.box_type = skipCC ∧ is_fullbox_type bt0 = true)) ∧
    (is_fullbox_type bt0 = false → s' = s3 ∧ b.box_type = bt0) := by
  unfold parse_box_tail at h
  dsimp only at h
  cases hcs : (match bsz with
    | some v =>
      if v < (if is_fullbox_type bt0 then hdr + 4 else hdr) then (.error .Invalid : InternalResult (Option Nat))
      else .ok (some (v - (if is_fullbox_type bt0 then hdr + 4 else hdr)))
    | none => .ok none) with
  | error e => rw [hcs] at h; cases h
  | ok content_size =>
    rw [hcs] at h
    dsimp only at h
    have hcsome : content_size.isSome ↔ bsz.isSome := by
      cases bsz with
      | some v =>
        dsimp only at hcs
        by_cases hvb : v < (if is_fullbox_type bt0 = true then hdr + 4 else hdr)
        · rw [if_pos hvb] at hcs; cases hcs
        · rw [if_neg hvb] at hcs; injection hcs with hh; subst hh; simp
      | none => dsimp only at hcs; injection hcs with hh; subst hh; simp
    by_cases hov : (match s3.size with
        | some psize =>
          decide (content_size.getD (if is_fullbox_type bt0 = true then hdr + 4 else hdr) >
            psize - s3.offset)
        | none => false) = true
    · rw [if_pos hov] at h; cases h
    · rw [if_neg hov] at h
      cases hcount : (if nl ≠ 0 ∨ bt0 ≠ ftypCC then
            if nb + 1 ≥ AVIFINFO_MAX_NUM_BOXES then (.error .Aborted : InternalResult Nat)
            else .ok (nb + 1)
          else .ok nb) with
        | error e => rw [hcount] at h; cases h
        | ok nb1 =>
          rw [hcount] at h
          dsimp only at h
          have hcnt1 : (nl = 0 ∧ bt0 = ftypCC) → nb1 = nb := by
            rintro ⟨hz, hf⟩
            rw [if_neg (by simp [hz, hf])] at hcount
            injection hcount with hh
            exact hh.symm
          have hcnt2 : (nl ≠ 0 ∨ bt0 ≠ ftypCC) → nb1 = nb + 1 ∧ nb + 1 < AVIFINFO_MAX_NUM_BOXES := by
            intro hc
            rw [if_pos hc] at hcount
            split at hcount
            · cases hcount
            · rename_i hlt
              injection hcount with hh
              exact ⟨hh.symm, by omega⟩
          by_cases hfb : is_fullbox_type bt0 = true
          · rw [if_pos hfb] at h
            cases hv : s3.read_u8 with
            | error e => rw [hv] at h; cases h
            | ok p =>
              obtain ⟨version, s4⟩ := p
              rw [hv] at h
              dsimp only at h
              cases hfl : s4.read_u24 with
              | error e => rw [hfl] at h; cases h
              | ok q =>
                obtain ⟨flags, s5⟩ := q
                rw [hfl] at h
                dsimp only at h
                cases h
                obtain ⟨ha1, ha2, ha3, _, ha5, _⟩ := Stream.read_u8_ok hv
                obtain ⟨hb1, hb2, hb3, hb4, _⟩ := Stream.read_u24_ok hfl
                refine ⟨by rw [hb1, ha1], by rw [hb2, ha2], by omega, ?_, hcsome, hcnt1, hcnt2, ?_,
                  fun hff => by rw [hff] at hfb; exact absurd hfb (by simp)⟩
                · intro sz hsz _
                  have := hb4 sz (by rw [ha2]; exact hsz)
                  omega
                · dsimp only
                  split
                  · exact Or.inl rfl
                  · exact Or.inr ⟨rfl, hfb⟩
          · rw [if_neg hfb] at h
            cases h
            exact ⟨rfl, rfl, le_refl _, fun sz _ hle => hle, hcsome, hcnt1, hcnt2, Or.inl rfl,
              fun _ => ⟨rfl, rfl⟩⟩

theorem parse_box_ok {nl : Nat} {s s' : Stream} {nb nb' : Nat} {b : InternalBox}
    (h : parse_box nl s nb = .ok (b, s', nb')) :
    s'.data = s.data ∧ s'.size = s.size ∧ s.offset + 8 ≤ s'.offset ∧
    (∀ sz, s.size = some sz → s'.offset ≤ sz) ∧
    (s.size = none → ∃ d, s.data = some d ∧ s.offset + 4 ≤ d.length) ∧
    (nl ≠ 0 → b.content_size.isSome) ∧
    ((nl = 0 ∧ b.box_type = ftypCC) → nb' = nb) ∧
    ((nl ≠ 0 ∨ b.box_type ≠ ftypCC) → nb' = nb + 1 ∧ nb + 1 < AVIFINFO_MAX_NUM_BOXES) := by
  unfold parse_box at h
  cases h32 : s.read_u32 with
  | error e => rw [h32] at h; cases h
  | ok p =>
    obtain ⟨size32, s1⟩ := p
    rw [h32] at h
    dsimp only at h
    cases h4 : s1.read_4cc with
    | error e => rw [h4] at h; cases h
    | ok q =>
      obtain ⟨bt0, s2⟩ := q
      rw [h4] at h
      dsimp only at h
      obtain ⟨ha1, ha2, ha3, ha4, ha5, da, hda, hdal, _⟩ := Stream.read_u32_ok h32
      obtain ⟨hb1, hb2, hb3, _, _, hb6, _⟩ := Stream.read_4cc_ok h4
      -- b.box_type = ftypCC is equivalent to bt0 = ftypCC: "ftyp" is not a
      -- full box so it is never rewritten, and the rewrite target "skip"
      -- is not "ftyp".
      have hbt : (b.box_type = bt0 ∨ (b.box_type = skipCC ∧ is_fullbox_type bt0 = true)) →
          (b.box_type = ftypCC ↔ bt0 = ftypCC) := by
        rintro (hh | ⟨hh, hfb⟩)
        · rw [hh]
        · rw [hh]
          constructor
          · intro hc; exact absurd hc (by decide)
          · intro hc; subst hc; exact absurd hfb (by decide)
      by_cases hs1 : size32 = 1
      · rw [if_pos hs1] at h
        cases h64 : s2.read_u64 with
        | error e => rw [h64] at h; cases h
        | ok r =>
          obtain ⟨size64, s3⟩ := r
          rw [h64] at h
          dsimp only at h
          obtain ⟨hc1, hc2, hc3, _, hc5, _⟩ := Stream.read_u64_ok h64
          obtain ⟨ht1, ht2, ht3, ht4, ht5, ht6, ht7, ht8, ht9⟩ := parse_box_tail_ok h
          have hbt' := hbt ht8
          refine ⟨by rw [ht1, hc1, hb1, ha1], by rw [ht2, hc2, hb2, ha2], by omega, ?_, ?_, ?_, ?_, ?_⟩
          · intro sz hsz
            have hszc : s3.size = some sz := by rw [hc2, hb2, ha2]; exact hsz
            have h8 := hc5 sz (by rw [hb2, ha2]; exact hsz)
            exact ht4 sz hszc (by omega)
          · intro _
            obtain ⟨d0, hd0, hd0l⟩ : ∃ d0, s.data = some d0 ∧ s.offset + 4 ≤ d0.length :=
              ⟨da, hda, by omega⟩
            exact ⟨d0, hd0, hd0l⟩
          · intro _; rw [ht5]; rfl
          · rintro ⟨hz, hf⟩; exact ht6 ⟨hz, (hbt'.mp hf)⟩
          · intro hc
            refine ht7 ?_
            rcases hc with hc | hc
            · exact Or.inl hc
            · exact Or.inr (fun hcc => hc (hbt'.mpr hcc))
      · rw [if_neg hs1] at h
        by_cases hs0 : size32 = 0
        · rw [if_pos hs0] at h
          by_cases hnl : nl ≠ 0
          · rw [if_pos hnl] at h; cases h
          · rw [if_neg hnl] at h
            obtain ⟨ht1, ht2, ht3, ht4, ht5, ht6, ht7, ht8, ht9⟩ := parse_box_tail_ok h
            have hbt' := hbt ht8
            refine ⟨by rw [ht1, hb1, ha1], by rw [ht2, hb2, ha2], by omega, ?_, ?_, ?_, ?_, ?_⟩
            · intro sz hsz
              have hszc : s2.size = some sz := by rw [hb2, ha2]; exact hsz
              have h8 := hb6 sz (by rw [ha2]; exact hsz)
              exact ht4 sz hszc (by omega)
            · intro _; exact ⟨da, hda, by omega⟩
            · intro hc; exact absurd hc hnl
            · rintro ⟨hz, hf⟩; exact ht6 ⟨hz, hbt'.mp hf⟩
            · intro hc
              refine ht7 ?_
              rcases hc with hc | hc
              · exact Or.inl hc
              · exact Or.inr (fun hcc => hc (hbt'.mpr hcc))
        · rw [if_neg hs0] at h
          obtain ⟨ht1, ht2, ht3, ht4, ht5, ht6, ht7, ht8, ht9⟩ := parse_box_tail_ok h
          have hbt' := hbt ht8
          refine ⟨by rw [ht1, hb1, ha1], by rw [ht2, hb2, ha2], by omega, ?_, ?_, ?_, ?_, ?_⟩
          · intro sz hsz
            have hszc : s2.size = some sz := by rw [hb2, ha2]; exact hsz
            have h8 := hb6 sz (by rw [ha2]; exact hsz)
            exact ht4 sz hszc (by omega)
          · intro _; exact ⟨da, hda, by omega⟩
          · intro _; rw [ht5]; rfl
          · rintro ⟨hz, hf⟩; exact ht6 ⟨hz, hbt'.mp hf⟩
          · intro hc
            refine ht7 ?_
            rcases hc with hc | hc
            · exact Or.inl hc
            · exact Or.inr (fun hcc => hc (hbt'.mpr hcc))

/-- One loop iteration (header + substream) strictly shrinks the stream
measure; this is what makes the `while has_more_bytes` loops (and the
top-level `loop`) terminate, and what makes fuel `measure + 1` enough. -/
theorem loop_measure_lt {nl : Nat} {s s1 s2 bs : Stream} {nb nb1 : Nat} {b : InternalBox}
    (h1 : parse_box nl s nb = .ok (b, s1, nb1))
    (h2 : s1.substream b.content_size = .ok (bs, s2)) :
    s2.measure < s.measure := by
  obtain ⟨ha1, ha2, ha3, ha4, ha5, _⟩ := parse_box_ok h1
  obtain ⟨hb1, hb2, hb3, hb4, _⟩ := Stream.substream_ok h2
  unfold Stream.measure
  cases hsz : s.size with
  | some sz =>
    have h1sz : s1.size = some sz := by rw [ha2]; exact hsz
    have h2sz : s2.size = some sz := by rw [hb2]; exact h1sz
    rw [h2sz]
    dsimp only
    have o3 : s2.offset ≤ sz := hb4 sz h1sz
    have o4 : s1.offset ≤ sz := ha4 sz hsz
    omega
  | none =>
    have h1sz : s1.size = none := by rw [ha2]; exact hsz
    have h2sz : s2.size = none := by rw [hb2]; exact h1sz
    obtain ⟨d, hd, hdl⟩ := ha5 hsz
    have h2d : s2.data = some d := by rw [hb1, ha1]; exact hd
    rw [h2sz, h2d, hd]
    dsimp only
    omega

/-! Invariant and monotonicity predicates used across the per-box parsers. -/

/-- Validity of one channel-property record: what `pixi` and `av1C`
actually enforce before appending. -/
def chanValid (c : InternalChanProp) : Prop :=
  1 ≤ c.bit_depth ∧ 1 ≤ c.num_channels ∧ c.num_channels ≤ 3

def ChanOK (f : InternalFeatures) : Prop := ∀ c ∈ f.chan_props, chanValid c

/-- The bit-depth/channel pair of the accumulated `primary_item_features`
is either still unset or was copied from a valid channel record. -/
def PifOK (f : InternalFeatures) : Prop :=
  (f.primary_item_features.bit_depth = 0 ∧ f.primary_item_features.num_channels = 0) ∨
  (1 ≤ f.primary_item_features.bit_depth ∧ 1 ≤ f.primary_item_features.num_channels ∧
    f.primary_item_features.num_channels ≤ 3)

/-- When a primary item has been recorded, the recorded location/width pair
addresses the recorded id inside the original buffer (big-endian). -/
def LocInv (data : List Nat) (f : InternalFeatures) : Prop :=
  f.has_primary_item = true →
    (f.primary_item_features.primary_item_id_location +
        f.primary_item_features.primary_item_id_bytes ≤ data.length ∧
     sliceBE data f.primary_item_features.primary_item_id_location
        f.primary_item_features.primary_item_id_bytes = f.primary_item_id ∧
     (f.primary_item_features.primary_item_id_bytes = 2 ∨
      f.primary_item_features.primary_item_id_bytes = 4))

/-- Record counts stay within the fixed capacities. -/
def LenOK (f : InternalFeatures) : Prop :=
  f.tiles.length ≤ AVIFINFO_MAX_TILES ∧ f.props.length ≤ AVIFINFO_MAX_PROPS ∧
  f.dim_props.length ≤ AVIFINFO_MAX_FEATURES ∧ f.chan_props.length ≤ AVIFINFO_MAX_FEATURES

def Inv (data : List Nat) (f : InternalFeatures) : Prop :=
  ChanOK f ∧ PifOK f ∧ LocInv data f ∧ LenOK f

/-- What holds of the accumulator whenever the resolver has succeeded. -/
def Good (f : InternalFeatures) : Prop :=
  f.has_primary_item = true ∧ 1 ≤ f.primary_item_features.bit_depth ∧
  1 ≤ f.primary_item_features.num_channels ∧ f.primary_item_features.num_channels ≤ 4

/-- Monotone evolution of the accumulator: lists only grow by appending,
booleans are only set, nonzero ids stay nonzero, and the pixel/channel
facts of `primary_item_features` are never overwritten once both members
of a pair are set (except that a successful resolver run may add the alpha
channel once, which `bump = true` permits). -/
def MonoX (f f' : InternalFeatures) (bump : Bool) : Prop :=
  (∃ t, f'.tiles = f.tiles ++ t) ∧ (∃ t, f'.props = f.props ++ t) ∧
  (∃ t, f'.dim_props = f.dim_props ++ t) ∧ (∃ t, f'.chan_props = f.chan_props ++ t) ∧
  (f.has_primary_item = true → f'.has_primary_item = true) ∧
  (f.has_alpha = true → f'.has_alpha = true) ∧
  (f.data_was_skipped = true → f'.data_was_skipped = true) ∧
  (f.iinf_parsed = true → f'.iinf_parsed = true) ∧
  (f.iref_parsed = true → f'.iref_parsed = true) ∧
  (f.gainmap_property_index ≠ 0 → f'.gainmap_property_index ≠ 0) ∧
  (f.primary_item_features.has_gainmap = true → f'.primary_item_features.has_gainmap = true) ∧
  (f.primary_item_features.width ≠ 0 ∧ f.primary_item_features.height ≠ 0 →
    f'.primary_item_features.width = f.primary_item_features.width ∧
    f'.primary_item_features.height = f.primary_item_features.height) ∧
  (f.primary_item_features.bit_depth ≠ 0 ∧ f.primary_item_features.num_channels ≠ 0 →
    f'.primary_item_features.bit_depth = f.primary_item_features.bit_depth ∧
    (f'.primary_item_features.num_channels = f.primary_item_features.num_channels ∨
      (bump = true ∧ f'.primary_item_features.num_channels =
        f.primary_item_features.num_channels + 1)))

theorem MonoX.selfX (f : InternalFeatures) (bump : Bool) : MonoX f f bump := by
  refine ⟨⟨[], by simp⟩, ⟨[], by simp⟩, ⟨[], by simp⟩, ⟨[], by simp⟩,
    id, id, id, id, id, id, id, fun _ => ⟨rfl, rfl⟩, fun _ => ⟨rfl, Or.inl rfl⟩⟩

theorem MonoX.transX {f g h : InternalFeatures} {bump : Bool}
    (h1 : MonoX f g false) (h2 : MonoX g h bump) : MonoX f h bump := by
  obtain ⟨⟨t1, a1⟩, ⟨t2, a2⟩, ⟨t3, a3⟩, ⟨t4, a4⟩, a5, a6, a7, a8, a9, a10, a12, a13, a14⟩ := h1
  obtain ⟨⟨u1, b1⟩, ⟨u2, b2⟩, ⟨u3, b3⟩, ⟨u4, b4⟩, b5, b6, b7, b8, b9, b10, b12, b13, b14⟩ := h2
  refine ⟨⟨t1 ++ u1, by rw [b1, a1, List.append_assoc]⟩,
    ⟨t2 ++ u2, by rw [b2, a2, List.append_assoc]⟩,
    ⟨t3 ++ u3, by rw [b3, a3, List.append_assoc]⟩,
    ⟨t4 ++ u4, by rw [b4, a4, List.append_assoc]⟩,
    fun x => b5 (a5 x), fun x => b6 (a6 x), fun x => b7 (a7 x), fun x => b8 (a8 x),
    fun x => b9 (a9 x), fun x => b10 (a10 x), fun x => b12 (a12 x),
    ?_, ?_⟩
  · rintro ⟨hw, hh⟩
    obtain ⟨c1, c2⟩ := a13 ⟨hw, hh⟩
    obtain ⟨d1, d2⟩ := b13 ⟨by rw [c1]; exact hw, by rw [c2]; exact hh⟩
    exact ⟨by rw [d1, c1], by rw [d2, c2]⟩
  · rintro ⟨hb, hn⟩
    obtain ⟨c1, c2⟩ := a14 ⟨hb, hn⟩
    rcases c2 with c2 | ⟨hfalse, _⟩
    · obtain ⟨d1, d2⟩ := b14 ⟨by rw [c1]; exact hb, by rw [c2]; exact hn⟩
      refine ⟨by rw [d1, c1], ?_⟩
      rcases d2 with d2 | ⟨dbump, d2⟩
      · exact Or.inl (by rw [d2, c2])
      · exact Or.inr ⟨dbump, by rw [d2, c2]⟩
    · cases hfalse

/-- Effects contract of every accumulator-mutating parsing function.  On
success the alpha bump may push `num_channels` to 4, so `PifOK` is only
preserved along error results. -/
def Eff (data : List Nat) (f f' : InternalFeatures) (r : InternalResult Unit) : Prop :=
  MonoX f f' r.isOk ∧
  (Inv data f → ChanOK f' ∧ LocInv data f' ∧ LenOK f' ∧ (r = .ok () → Good f') ∧
    (∀ e, r = .error e → PifOK f'))

/-! Effects of the feature-join (`get_item_features`) layer: it reads the
record lists and writes only the width/height and bit-depth/channel pairs
of `primary_item_features`, each only while still unset. -/

def GifFrame (f f' : InternalFeatures) : Prop :=
  f'.tiles = f.tiles ∧ f'.props = f.props ∧ f'.dim_props = f.dim_props ∧
  f'.chan_props = f.chan_props ∧ f'.has_primary_item = f.has_primary_item ∧
  f'.has_alpha = f.has_alpha ∧ f'.data_was_skipped = f.data_was_skipped ∧
  f'.iinf_parsed = f.iinf_parsed ∧ f'.iref_parsed = f.iref_parsed ∧
  f'.gainmap_property_index = f.gainmap_property_index ∧
  f'.tone_mapped_item_id = f.tone_mapped_item_id ∧
  f'.primary_item_id = f.primary_item_id ∧
  f'.primary_item_features.has_gainmap = f.primary_item_features.has_gainmap ∧
  f'.primary_item_features.gainmap_item_id = f.primary_item_features.gainmap_item_id ∧
  f'.primary_item_features.primary_item_id_location =
    f.primary_item_features.primary_item_id_location ∧
  f'.primary_item_features.primary_item_id_bytes =
    f.primary_item_features.primary_item_id_bytes

def GifEff (f f' : InternalFeatures) : Prop :=
  GifFrame f f' ∧
  (f.primary_item_features.width ≠ 0 ∧ f.primary_item_features.height ≠ 0 →
    f'.primary_item_features.width = f.primary_item_features.width ∧
    f'.primary_item_features.height = f.primary_item_features.height) ∧
  (f.primary_item_features.bit_depth ≠ 0 ∧ f.primary_item_features.num_channels ≠ 0 →
    f'.primary_item_features.bit_depth = f.primary_item_features.bit_depth ∧
    f'.primary_item_features.num_channels = f.primary_item_features.num_channels) ∧
  (ChanOK f → PifOK f → PifOK f')

def GoodChan (f : InternalFeatures) : Prop :=
  1 ≤ f.primary_item_features.bit_depth ∧ 1 ≤ f.primary_item_features.num_channels ∧
  f.primary_item_features.num_channels ≤ 3

theorem GifFrame.selfF (f : InternalFeatures) : GifFrame f f :=
  ⟨rfl, rfl, rfl, rfl, rfl, rfl, rfl, rfl, rfl, rfl, rfl, rfl, rfl, rfl, rfl, rfl⟩

theorem GifEff.selfE (f : InternalFeatures) : GifEff f f :=
  ⟨GifFrame.selfF f, fun _ => ⟨rfl, rfl⟩, fun _ => ⟨rfl, rfl⟩, fun _ h => h⟩

theorem GifFrame.transF {f g h : InternalFeatures} (h1 : GifFrame f g) (h2 : GifFrame g h) :
    GifFrame f h := by
  obtain ⟨a1, a2, a3, a4, a5, a6, a7, a8, a9, a10, a11, a12, a13, a14, a15, a16⟩ := h1
  obtain ⟨b1, b2, b3, b4, b5, b6, b7, b8, b9, b10, b11, b12, b13, b14, b15, b16⟩ := h2
  exact ⟨b1.trans a1, b2.trans a2, b3.trans a3, b4.trans a4, b5.trans a5, b6.trans a6,
    b7.trans a7, b8.trans a8, b9.trans a9, b10.trans a10, b11.trans a11, b12.trans a12,
    b13.trans a13, b14.trans a14, b15.trans a15, b16.trans a16⟩

theorem GifEff.transE {f g h : InternalFeatures} (h1 : GifEff f g) (h2 : GifEff g h) :
    GifEff f h := by
  obtain ⟨fr1, wh1, ch1, pk1⟩ := h1
  obtain ⟨fr2, wh2, ch2, pk2⟩ := h2
  refine ⟨fr1.transF fr2, ?_, ?_, ?_⟩
  · rintro ⟨hw, hh⟩
    obtain ⟨c1, c2⟩ := wh1 ⟨hw, hh⟩
    obtain ⟨d1, d2⟩ := wh2 ⟨by rw [c1]; exact hw, by rw [c2]; exact hh⟩
    exact ⟨by rw [d1, c1], by rw [d2, c2]⟩
  · rintro ⟨hb, hn⟩
    obtain ⟨c1, c2⟩ := ch1 ⟨hb, hn⟩
    obtain ⟨d1, d2⟩ := ch2 ⟨by rw [c1]; exact hb, by rw [c2]; exact hn⟩
    exact ⟨by rw [d1, c1], by rw [d2, c2]⟩
  · intro hc hp
    have hcg : ChanOK g := by
      unfold ChanOK at hc ⊢
      rw [fr1.2.2.2.1]
      exact hc
    exact pk2 hcg (pk1 hc hp)

theorem gifDimStep_eff {f f' : InternalFeatures} {t pi : Nat} {e : Bool}
    (h : gifDimStep f t pi = (f', e)) :
    GifEff f f' ∧ (e = true → ChanOK f → PifOK f →
      1 ≤ f'.primary_item_features.bit_depth ∧ 1 ≤ f'.primary_item_features.num_channels ∧
      f'.primary_item_features.num_channels ≤ 3) := by
  unfold gifDimStep at h
  split at h
  · rename_i hguard
    cases hfind : f.dim_props.find? (fun dp => dp.property_index == pi) with
    | none =>
      rw [hfind] at h
      cases h
      exact ⟨GifEff.selfE _, fun he hc hp => absurd he (by simp)⟩
    | some dp =>
      rw [hfind] at h
      dsimp only at h
      cases h
      constructor
      · refine ⟨⟨rfl, rfl, rfl, rfl, rfl, rfl, rfl, rfl, rfl, rfl, rfl, rfl, rfl, rfl,
          rfl, rfl⟩, ?_, fun _ => ⟨rfl, rfl⟩, ?_⟩
        · rintro ⟨hw, hh⟩
          rcases hguard.2 with hz | hz
          · exact absurd hz hw
          · exact absurd hz hh
        · intro hc hp
          unfold PifOK at hp ⊢
          dsimp only
          exact hp
      · intro he hc hp
        have hei := of_decide_eq_true he
        rcases hp with ⟨hp1, hp2⟩ | ⟨hp1, hp2, hp3⟩
        · exact absurd hp1 hei.1
        · exact ⟨hp1, hp2, hp3⟩
  · cases h
    exact ⟨GifEff.selfE _, fun he hc hp => absurd he (by simp)⟩

theorem gifChanStep_eff {f f' : InternalFeatures} {pi : Nat} {e : Bool}
    (h : gifChanStep f pi = (f', e)) :
    GifEff f f' ∧ (e = true → ChanOK f → PifOK f →
      1 ≤ f'.primary_item_features.bit_depth ∧ 1 ≤ f'.primary_item_features.num_channels ∧
      f'.primary_item_features.num_channels ≤ 3) := by
  unfold gifChanStep at h
  split at h
  · rename_i hguard
    cases hfind : f.chan_props.find? (fun cp => cp.property_index == pi) with
    | none =>
      rw [hfind] at h
      cases h
      exact ⟨GifEff.selfE _, fun he hc hp => absurd he (by simp)⟩
    | some cp =>
      rw [hfind] at h
      dsimp only at h
      cases h
      have hmem := List.mem_of_find?_eq_some hfind
      constructor
      · refine ⟨⟨rfl, rfl, rfl, rfl, rfl, rfl, rfl, rfl, rfl, rfl, rfl, rfl, rfl, rfl,
          rfl, rfl⟩, fun _ => ⟨rfl, rfl⟩, ?_, ?_⟩
        · rintro ⟨hb, hn⟩
          rcases hguard with hz | hz
          · exact absurd hz hb
          · exact absurd hz hn
        · intro hc hp
          unfold PifOK
          dsimp only
          obtain ⟨v1, v2, v3⟩ := hc cp hmem
          exact Or.inr ⟨v1, v2, v3⟩
      · intro he hc hp
        obtain ⟨v1, v2, v3⟩ := hc cp hmem
        exact ⟨v1, v2, v3⟩
  · cases h
    refine ⟨GifEff.selfE f, fun he hc hp => ?_⟩
    rename_i hguard
    rcases hp with ⟨hp1, hp2⟩ | ⟨hp1, hp2, hp3⟩
    · exact absurd (Or.inl hp1) hguard
    · exact ⟨hp1, hp2, hp3⟩

theorem gifProps_eff {ps : List InternalProp} {f f' : InternalFeatures} {t : Nat} {e : Bool}
    (h : gifProps f t ps = (f', e)) :
    GifEff f f' ∧ (e = true → ChanOK f → PifOK f →
      1 ≤ f'.primary_item_features.bit_depth ∧ 1 ≤ f'.primary_item_features.num_channels ∧
      f'.primary_item_features.num_channels ≤ 3) := by
  induction ps generalizing f with
  | nil =>
    unfold gifProps at h
    cases h
    exact ⟨GifEff.selfE _, fun he _ _ => absurd he (by simp)⟩
  | cons p rest ih =>
    unfold gifProps at h
    split at h
    · exact ih h
    · cases h1 : gifDimStep f t p.property_index with
      | mk f1 e1 =>
        rw [h1] at h
        obtain ⟨he1, hp1⟩ := gifDimStep_eff h1
        cases e1 with
        | true =>
          dsimp only at h
          cases h
          exact ⟨he1, hp1⟩
        | false =>
          dsimp only at h
          cases h2 : gifChanStep f1 p.property_index with
          | mk f2 e2 =>
            rw [h2] at h
            obtain ⟨he2, hp2⟩ := gifChanStep_eff h2
            have hck1 : ChanOK f → ChanOK f1 := by
              intro hc
              unfold ChanOK at hc ⊢
              rw [he1.1.2.2.2.1]
              exact hc
            cases e2 with
            | true =>
              dsimp only at h
              cases h
              refine ⟨he1.transE he2, fun _ hc hp => ?_⟩
              exact hp2 rfl (hck1 hc) (he1.2.2.2 hc hp)
            | false =>
              dsimp only at h
              obtain ⟨he3, hp3⟩ := ih h
              have hck2 : ChanOK f → ChanOK f2 := by
                intro hc
                unfold ChanOK at hc ⊢
                rw [he2.1.2.2.2.1]
                exact hck1 hc
              refine ⟨(he1.transE he2).transE he3, fun hee hc hp => ?_⟩
              exact hp3 hee (hck2 hc) (he2.2.2.2 (hck1 hc) (he1.2.2.2 hc hp))

theorem gifTiles_eff {recurse : InternalFeatures → Nat → InternalFeatures × InternalResult Unit}
    {t : Nat} {f f' : InternalFeatures} {ts : List InternalTile} {r : InternalResult Unit}
    (hrec : ∀ fa tid fb rb, recurse fa tid = (fb, rb) → GifEff fa fb ∧
      (rb = .ok () → ChanOK fa → PifOK fa → GoodChan fb))
    (h : gifTiles recurse t f ts = (f', r)) :
    GifEff f f' ∧ (r = .ok () → ChanOK f → PifOK f → GoodChan f') := by
  induction ts generalizing f with
  | nil =>
    unfold gifTiles at h
    cases h
    exact ⟨GifEff.selfE _, fun hr _ _ => absurd hr (by simp)⟩
  | cons tl rest ih =>
    unfold gifTiles at h
    split at h
    · exact ih h
    · cases hrc : recurse f tl.tile_item_id with
      | mk fb rb =>
        rw [hrc] at h
        obtain ⟨hge, hgo⟩ := hrec f tl.tile_item_id fb rb hrc
        cases rb with
        | ok u =>
          cases u
          dsimp only at h
          cases h
          exact ⟨hge, fun _ => hgo rfl⟩
        | error e =>
          cases e with
          | NotFound =>
            dsimp only at h
            obtain ⟨hge2, hgo2⟩ := ih h
            refine ⟨hge.transE hge2, fun hr hc hp => ?_⟩
            have hcb : ChanOK fb := by
              unfold ChanOK at hc ⊢
              rw [hge.1.2.2.2.1]
              exact hc
            exact hgo2 hr hcb (hge.2.2.2 hc hp)
          | Truncated =>
            dsimp only at h
            cases h
            exact ⟨hge, fun hr => absurd hr (by simp)⟩
          | Aborted =>
            dsimp only at h
            cases h
            exact ⟨hge, fun hr => absurd hr (by simp)⟩
          | Invalid =>
            dsimp only at h
            cases h
            exact ⟨hge, fun hr => absurd hr (by simp)⟩

theorem get_item_features_aux_eff {budget : Nat} {f f' : InternalFeatures} {t : Nat}
    {r : InternalResult Unit} (h : get_item_features_aux budget f t = (f', r)) :
    GifEff f f' ∧ (r = .ok () → ChanOK f → PifOK f → GoodChan f') := by
  induction budget generalizing f t f' r with
  | zero =>
    unfold get_item_features_aux at h
    cases hgp : gifProps f t f.props with
    | mk f1 e1 =>
      rw [hgp] at h
      obtain ⟨hg1, hp1⟩ := gifProps_eff hgp
      cases e1 with
      | true =>
        dsimp only at h
        cases h
        exact ⟨hg1, fun _ hc hp => hp1 rfl hc hp⟩
      | false =>
        dsimp only at h
        cases h
        exact ⟨hg1, fun hr => absurd hr (by simp)⟩
  | succ b ih =>
    unfold get_item_features_aux at h
    cases hgp : gifProps f t f.props with
    | mk f1 e1 =>
      rw [hgp] at h
      obtain ⟨hg1, hp1⟩ := gifProps_eff hgp
      cases e1 with
      | true =>
        dsimp only at h
        cases h
        exact ⟨hg1, fun _ hc hp => hp1 rfl hc hp⟩
      | false =>
        dsimp only at h
        obtain ⟨hg2, hp2⟩ := gifTiles_eff (fun fa tid fb rb hh => ih hh) h
        refine ⟨hg1.transE hg2, fun hr hc hp => ?_⟩
        have hc1 : ChanOK f1 := by
          unfold ChanOK at hc ⊢
          rw [hg1.1.2.2.2.1]
          exact hc
        exact hp2 hr hc1 (hg1.2.2.2 hc hp)

theorem InternalFeatures.get_item_features_eff {f f' : InternalFeatures} {t d : Nat}
    {r : InternalResult Unit} (h : f.get_item_features t d = (f', r)) :
    GifEff f f' ∧ (r = .ok () → ChanOK f → PifOK f → GoodChan f') :=
  get_item_features_aux_eff h

theorem GifEff.toMonoX {f f' : InternalFeatures} (h : GifEff f f') (b : Bool) :
    MonoX f f' b := by
  obtain ⟨⟨a1, a2, a3, a4, a5, a6, a7, a8, a9, a10, a11, a12, a13, a14, a15, a16⟩,
    wh, ch, _⟩ := h
  refine ⟨⟨[], by rw [a1, List.append_nil]⟩, ⟨[], by rw [a2, List.append_nil]⟩,
    ⟨[], by rw [a3, List.append_nil]⟩, ⟨[], by rw [a4, List.append_nil]⟩,
    fun x => by rw [a5]; exact x, fun x => by rw [a6]; exact x,
    fun x => by rw [a7]; exact x, fun x => by rw [a8]; exact x,
    fun x => by rw [a9]; exact x, fun x => by rw [a10]; exact x,
    fun x => by rw [a13]; exact x,
    wh, fun hx => ⟨(ch hx).1, Or.inl (ch hx).2⟩⟩

theorem heif_scan_shape (f : InternalFeatures) :
    heif_scan f = f ∨ ∃ x, heif_scan f =
      { f with primary_item_features := { f.primary_item_features with
          has_gainmap := true, gainmap_item_id := x } } := by
  unfold heif_scan
  split
  · split
    · exact Or.inr ⟨_, rfl⟩
    · exact Or.inl rfl
  · exact Or.inl rfl

theorem adobe_scan_shape (f : InternalFeatures) :
    adobe_scan f = f ∨ ∃ x, adobe_scan f =
      { f with primary_item_features := { f.primary_item_features with
          has_gainmap := true, gainmap_item_id := x } } := by
  unfold adobe_scan
  split
  · split
    · exact Or.inr ⟨_, rfl⟩
    · exact Or.inl rfl
  · exact Or.inl rfl

/-- Setting only the gain-map pair of `primary_item_features` affects no
invariant and is monotone. -/
theorem gain_shape_eff {f g : InternalFeatures}
    (hs : g = f ∨ ∃ x, g = { f with primary_item_features := { f.primary_item_features with
        has_gainmap := true, gainmap_item_id := x } }) :
    (∀ b, MonoX f g b) ∧ (ChanOK f → ChanOK g) ∧ (PifOK f → PifOK g) ∧
    (∀ data, LocInv data f → LocInv data g) ∧ (LenOK f → LenOK g) ∧
    g.has_primary_item = f.has_primary_item ∧ g.chan_props = f.chan_props ∧
    g.dim_props = f.dim_props ∧
    g.primary_item_id = f.primary_item_id ∧ g.has_alpha = f.has_alpha ∧
    g.primary_item_features.bit_depth = f.primary_item_features.bit_depth ∧
    g.primary_item_features.num_channels = f.primary_item_features.num_channels := by
  rcases hs with rfl | ⟨x, rfl⟩
  · exact ⟨fun b => MonoX.selfX _ b, id, id, fun _ => id, id, rfl, rfl, rfl, rfl, rfl, rfl, rfl⟩
  · refine ⟨fun b => ?_, id, id, fun _ => id, id, rfl, rfl, rfl, rfl, rfl, rfl, rfl⟩
    exact ⟨⟨[], by simp⟩, ⟨[], by simp⟩, ⟨[], by simp⟩, ⟨[], by simp⟩,
      id, id, id, id, id, id, fun _ => rfl,
      fun _ => ⟨rfl, rfl⟩, fun _ => ⟨rfl, Or.inl rfl⟩⟩

theorem bump_monoX (f3 : InternalFeatures) :
    MonoX f3 { f3 with primary_item_features := { f3.primary_item_features with
      num_channels := f3.primary_item_features.num_channels + 1 } } true :=
  ⟨⟨[], by simp⟩, ⟨[], by simp⟩, ⟨[], by simp⟩, ⟨[], by simp⟩,
    id, id, id, id, id, id, id, fun _ => ⟨rfl, rfl⟩, fun _ => ⟨rfl, Or.inr ⟨rfl, rfl⟩⟩⟩

theorem get_primary_item_features_eff {f f' : InternalFeatures} {r : InternalResult Unit}
    (h : f.get_primary_item_features = (f', r)) (data : List Nat) : Eff data f f' r := by
  unfold InternalFeatures.get_primary_item_features at h
  split at h
  · cases h
    exact ⟨MonoX.selfX _ _, fun hi => ⟨hi.1, hi.2.2.1, hi.2.2.2, fun hc => absurd hc (by simp),
      fun e _ => hi.2.1⟩⟩
  · split at h
    · cases h
      exact ⟨MonoX.selfX _ _, fun hi => ⟨hi.1, hi.2.2.1, hi.2.2.2, fun hc => absurd hc (by simp),
        fun e _ => hi.2.1⟩⟩
    · rename_i hpr hdc
      have hpr' : f.has_primary_item = true := by
        cases hpb : f.has_primary_item
        · rw [hpb] at hpr; exact absurd rfl hpr
        · rfl
      dsimp only at h
      have hcomp : adobe_scan (heif_scan f) = f ∨ ∃ x, adobe_scan (heif_scan f) =
          { f with primary_item_features := { f.primary_item_features with
              has_gainmap := true, gainmap_item_id := x } } := by
        rcases heif_scan_shape f with hb | ⟨y, hb⟩
        · rw [hb]
          exact adobe_scan_shape f
        · rcases adobe_scan_shape (heif_scan f) with ha | ⟨x, ha⟩
          · rw [ha, hb]
            exact Or.inr ⟨y, rfl⟩
          · right
            refine ⟨x, ?_⟩
            rw [ha, hb]
      have hs2 := gain_shape_eff hcomp
      obtain ⟨hm2, hck2, hpk2, hloc2, hlen2, hpi2, hcp2, hdp2, hid2, hal2, hbd2, hnc2⟩ := hs2
      split at h
      · cases h
        refine ⟨hm2 false, fun hi => ⟨hck2 hi.1, hloc2 data hi.2.2.1, hlen2 hi.2.2.2,
          fun hc => absurd hc (by simp), fun e _ => hpk2 hi.2.1⟩⟩
      · cases hgif : (adobe_scan (heif_scan f)).get_item_features
            (adobe_scan (heif_scan f)).primary_item_id 0 with
        | mk f3 r3 =>
          rw [hgif] at h
          obtain ⟨hge, hgo⟩ := InternalFeatures.get_item_features_eff hgif
          obtain ⟨g1, g2, g3, g4, g5, g6, g7, g8, g9, g10, g11, g12, g13, g14, g15, g16⟩ :=
            hge.1
          have hck3 : ChanOK f → ChanOK f3 := by
            intro hc
            unfold ChanOK
            rw [g4, hcp2]
            exact hc
          have hloc3 : LocInv data f → LocInv data f3 := by
            intro hl
            unfold LocInv
            rw [g5, g12, g15, g16]
            exact hloc2 data hl
          have hlen3 : LenOK f → LenOK f3 := by
            intro hl
            refine ⟨?_, ?_, ?_, ?_⟩
            · rw [g1]; exact (hlen2 hl).1
            · rw [g2]; exact (hlen2 hl).2.1
            · rw [g3, hdp2]; exact hl.2.2.1
            · rw [g4, hcp2]; exact hl.2.2.2
          cases r3 with
          | ok u =>
            cases u
            have hgood : ChanOK f → PifOK f → GoodChan f3 := fun hc hp =>
              hgo rfl (by unfold ChanOK; rw [hcp2]; exact hc) (hpk2 hp)
            have hprim3 : f3.has_primary_item = true := by rw [g5, hpi2]; exact hpr'
            dsimp only at h
            split at h
            · rename_i halpha
              cases h
              constructor
              · exact (hm2 false).transX ((hge.toMonoX false).transX (bump_monoX f3))
              · intro hi
                refine ⟨hck3 hi.1, hloc3 hi.2.2.1, hlen3 hi.2.2.2,
                  fun _ => ⟨hprim3, (hgood hi.1 hi.2.1).1, by
                    show 1 ≤ f3.primary_item_features.num_channels + 1
                    omega, by
                    show f3.primary_item_features.num_channels + 1 ≤ 4
                    have := (hgood hi.1 hi.2.1).2.2
                    omega⟩,
                  fun e hc => by cases hc⟩
            · cases h
              constructor
              · exact (hm2 false).transX (hge.toMonoX true)
              · intro hi
                refine ⟨hck3 hi.1, hloc3 hi.2.2.1, hlen3 hi.2.2.2,
                  fun _ => ⟨hprim3, (hgood hi.1 hi.2.1).1, (hgood hi.1 hi.2.1).2.1, by
                    have := (hgood hi.1 hi.2.1).2.2
                    omega⟩,
                  fun e hc => by cases hc⟩
          | error e =>
            dsimp only at h
            cases h
            constructor
            · exact (hm2 false).transX (hge.toMonoX false)
            · intro hi
              refine ⟨hck3 hi.1, hloc3 hi.2.2.1, hlen3 hi.2.2.2,
                fun hc => absurd hc (by simp), fun e' _ => ?_⟩
              exact hge.2.2.2 (by unfold ChanOK; rw [hcp2]; exact hi.1) (hpk2 hi.2.1)

/-! Small monotonicity facts for the individual accumulator mutations. -/

theorem dws_monoX (f : InternalFeatures) :
    MonoX f { f with data_was_skipped := true } false :=
  ⟨⟨[], by simp⟩, ⟨[], by simp⟩, ⟨[], by simp⟩, ⟨[], by simp⟩,
    id, id, fun _ => rfl, id, id, id, id, fun _ => ⟨rfl, rfl⟩, fun _ => ⟨rfl, Or.inl rfl⟩⟩

theorem dim_append_monoX (f : InternalFeatures) (dp : InternalDimProp) :
    MonoX f { f with dim_props := f.dim_props ++ [dp] } false :=
  ⟨⟨[], by simp⟩, ⟨[], by simp⟩, ⟨[dp], rfl⟩, ⟨[], by simp⟩,
    id, id, id, id, id, id, id, fun _ => ⟨rfl, rfl⟩, fun _ => ⟨rfl, Or.inl rfl⟩⟩

theorem chan_append_monoX (f : InternalFeatures) (cp : InternalChanProp) :
    MonoX f { f with chan_props := f.chan_props ++ [cp] } false :=
  ⟨⟨[], by simp⟩, ⟨[], by simp⟩, ⟨[], by simp⟩, ⟨[cp], rfl⟩,
    id, id, id, id, id, id, id, fun _ => ⟨rfl, rfl⟩, fun _ => ⟨rfl, Or.inl rfl⟩⟩

theorem alpha_monoX (f : InternalFeatures) :
    MonoX f { f with has_alpha := true } false :=
  ⟨⟨[], by simp⟩, ⟨[], by simp⟩, ⟨[], by simp⟩, ⟨[], by simp⟩,
    id, fun _ => rfl, id, id, id, id, id, fun _ => ⟨rfl, rfl⟩, fun _ => ⟨rfl, Or.inl rfl⟩⟩

theorem gpi_monoX (f : InternalFeatures) {x : Nat} (hx : x ≠ 0) :
    MonoX f { f with gainmap_property_index := x } false :=
  ⟨⟨[], by simp⟩, ⟨[], by simp⟩, ⟨[], by simp⟩, ⟨[], by simp⟩,
    id, id, id, id, id, fun _ => hx, id, fun _ => ⟨rfl, rfl⟩, fun _ => ⟨rfl, Or.inl rfl⟩⟩

theorem ipco_process_box_eff {f f' : InternalFeatures} {bf : InternalBox} {bs : Stream}
    {bi : Nat} {r : InternalResult Unit} (hbi : bi ≠ 0)
    (h : ipco_process_box f bf bs bi = (f', r)) :
    MonoX f f' false ∧ (∀ data, Inv data f → Inv data f') ∧
    (f'.dim_props = f.dim_props ∨ ∃ dp : InternalDimProp, dp.property_index = bi ∧
      f'.dim_props = f.dim_props ++ [dp]) ∧
    (f'.chan_props = f.chan_props ∨ ∃ cp : InternalChanProp, cp.property_index = bi ∧
      chanValid cp ∧ f'.chan_props = f.chan_props ++ [cp]) ∧
    (f'.gainmap_property_index = f.gainmap_property_index ∨
      f'.gainmap_property_index = bi) := by
  unfold ipco_process_box at h
  split at h
  · -- ispe
    cases hw : bs.read_u32 with
    | error e => rw [hw] at h; cases h; exact ⟨MonoX.selfX _ _, fun _ => id, Or.inl rfl,
        Or.inl rfl, Or.inl rfl⟩
    | ok p =>
      obtain ⟨width, bs1⟩ := p
      rw [hw] at h
      dsimp only at h
      cases hh : bs1.read_u32 with
      | error e => rw [hh] at h; cases h; exact ⟨MonoX.selfX _ _, fun _ => id, Or.inl rfl,
          Or.inl rfl, Or.inl rfl⟩
      | ok q =>
        obtain ⟨height, bs2⟩ := q
        rw [hh] at h
        dsimp only at h
        split at h
        · cases h; exact ⟨MonoX.selfX _ _, fun _ => id, Or.inl rfl, Or.inl rfl, Or.inl rfl⟩
        · split at h
          · cases h
            refine ⟨dim_append_monoX f _, fun data hi => ⟨hi.1, hi.2.1, hi.2.2.1, ?_⟩,
              Or.inr ⟨_, rfl, rfl⟩, Or.inl rfl, Or.inl rfl⟩
            rename_i hroom
            have hl := hi.2.2.2
            refine ⟨hl.1, hl.2.1, ?_, hl.2.2.2⟩
            have : f.dim_props.length < AVIFINFO_MAX_FEATURES := hroom
            simp only [List.length_append, List.length_cons, List.length_nil]
            unfold AVIFINFO_MAX_FEATURES at this ⊢
            omega
          · cases h
            exact ⟨dws_monoX f, fun _ => id, Or.inl rfl, Or.inl rfl, Or.inl rfl⟩
  · split at h
    · -- pixi
      cases hn : bs.read_u8 with
      | error e => rw [hn] at h; cases h; exact ⟨MonoX.selfX _ _, fun _ => id, Or.inl rfl,
          Or.inl rfl, Or.inl rfl⟩
      | ok p =>
        obtain ⟨num_channels, bs1⟩ := p
        rw [hn] at h
        dsimp only at h
        split at h
        · cases h; exact ⟨MonoX.selfX _ _, fun _ => id, Or.inl rfl, Or.inl rfl, Or.inl rfl⟩
        · rename_i hnc
          cases hb : bs1.read_u8 with
          | error e => rw [hb] at h; cases h; exact ⟨MonoX.selfX _ _, fun _ => id, Or.inl rfl,
              Or.inl rfl, Or.inl rfl⟩
          | ok q =>
            obtain ⟨bit_depth, bs2⟩ := q
            rw [hb] at h
            dsimp only at h
            split at h
            · cases h; exact ⟨MonoX.selfX _ _, fun _ => id, Or.inl rfl, Or.inl rfl, Or.inl rfl⟩
            · rename_i hbd
              cases hx : pixiExtra bs2 bit_depth (num_channels - 1) with
              | error e => rw [hx] at h; cases h; exact ⟨MonoX.selfX _ _, fun _ => id,
                  Or.inl rfl, Or.inl rfl, Or.inl rfl⟩
              | ok bs3 =>
                rw [hx] at h
                dsimp only at h
                split at h
                · cases h
                  rename_i hroom
                  refine ⟨chan_append_monoX f _, fun data hi => ⟨?_, hi.2.1, hi.2.2.1, ?_⟩,
                    Or.inl rfl, Or.inr ⟨_, rfl, ⟨by show 1 ≤ bit_depth; omega,
                      by show 1 ≤ num_channels; omega, by show num_channels ≤ 3; omega⟩, rfl⟩,
                    Or.inl rfl⟩
                  · intro c hc
                    rcases List.mem_append.mp hc with hc | hc
                    · exact hi.1 c hc
                    · rcases List.mem_singleton.mp hc with rfl
                      exact ⟨by show 1 ≤ bit_depth; omega, by show 1 ≤ num_channels; omega,
                        by show num_channels ≤ 3; omega⟩
                  · have hl := hi.2.2.2
                    refine ⟨hl.1, hl.2.1, hl.2.2.1, ?_⟩
                    have : f.chan_props.length < AVIFINFO_MAX_FEATURES := hroom
                    simp only [List.length_append, List.length_cons, List.length_nil]
                    unfold AVIFINFO_MAX_FEATURES at this ⊢
                    omega
                · cases h
                  exact ⟨dws_monoX f, fun _ => id, Or.inl rfl, Or.inl rfl, Or.inl rfl⟩
    · split at h
      · -- av1C
        cases hs : bs.skip 2 with
        | error e => rw [hs] at h; cases h; exact ⟨MonoX.selfX _ _, fun _ => id, Or.inl rfl,
            Or.inl rfl, Or.inl rfl⟩
        | ok bs1 =>
          rw [hs] at h
          dsimp only at h
          cases hd : bs1.read_u8 with
          | error e => rw [hd] at h; cases h; exact ⟨MonoX.selfX _ _, fun _ => id, Or.inl rfl,
              Or.inl rfl, Or.inl rfl⟩
          | ok p =>
            obtain ⟨d, bs2⟩ := p
            rw [hd] at h
            dsimp only at h
            split at h
            · cases h; exact ⟨MonoX.selfX _ _, fun _ => id, Or.inl rfl, Or.inl rfl, Or.inl rfl⟩
            · split at h
              · cases h
                rename_i hroom
                refine ⟨chan_append_monoX f _, fun data hi => ⟨?_, hi.2.1, hi.2.2.1, ?_⟩,
                  Or.inl rfl, Or.inr ⟨_, rfl, ⟨?_, ?_, ?_⟩, rfl⟩, Or.inl rfl⟩
                · intro c hc
                  rcases List.mem_append.mp hc with hc | hc
                  · exact hi.1 c hc
                  · rcases List.mem_singleton.mp hc with rfl
                    refine ⟨?_, ?_, ?_⟩
                    · dsimp only
                      split
                      · split
                        · omega
                        · omega
                      · omega
                    · dsimp only
                      split
                      · omega
                      · omega
                    · dsimp only
                      split
                      · omega
                      · omega
                · have hl := hi.2.2.2
                  refine ⟨hl.1, hl.2.1, hl.2.2.1, ?_⟩
                  have : f.chan_props.length < AVIFINFO_MAX_FEATURES := hroom
                  simp only [List.length_append, List.length_cons, List.length_nil]
                  unfold AVIFINFO_MAX_FEATURES at this ⊢
                  omega
                · dsimp only
                  split
                  · split
                    · omega
                    · omega
                  · omega
                · dsimp only
                  split
                  · omega
                  · omega
                · dsimp only
                  split
                  · omega
                  · omega
              · cases h
                exact ⟨dws_monoX f, fun _ => id, Or.inl rfl, Or.inl rfl, Or.inl rfl⟩
      · split at h
        · -- auxC
          dsimp only at h
          cases hr : bs.read (min (bf.content_size.getD 0) ALPHA_STR.length) with
          | error e => rw [hr] at h; cases h; exact ⟨MonoX.selfX _ _, fun _ => id, Or.inl rfl,
              Or.inl rfl, Or.inl rfl⟩
          | ok p =>
            obtain ⟨d, bs1⟩ := p
            rw [hr] at h
            dsimp only at h
            split at h
            · cases h
              exact ⟨alpha_monoX f, fun _ => id, Or.inl rfl, Or.inl rfl, Or.inl rfl⟩
            · split at h
              · cases h
                exact ⟨gpi_monoX f hbi, fun _ => id, Or.inl rfl, Or.inl rfl, Or.inr rfl⟩
              · cases h
                exact ⟨MonoX.selfX _ _, fun _ => id, Or.inl rfl, Or.inl rfl, Or.inl rfl⟩
        · cases h
          exact ⟨MonoX.selfX _ _, fun _ => id, Or.inl rfl, Or.inl rfl, Or.inl rfl⟩

theorem prop_append_monoX (f : InternalFeatures) (p : InternalProp) :
    MonoX f { f with props := f.props ++ [p] } false :=
  ⟨⟨[], by simp⟩, ⟨[p], rfl⟩, ⟨[], by simp⟩, ⟨[], by simp⟩,
    id, id, id, id, id, id, id, fun _ => ⟨rfl, rfl⟩, fun _ => ⟨rfl, Or.inl rfl⟩⟩

theorem tile_append_monoX (f : InternalFeatures) (t : InternalTile) :
    MonoX f { f with tiles := f.tiles ++ [t] } false :=
  ⟨⟨[t], rfl⟩, ⟨[], by simp⟩, ⟨[], by simp⟩, ⟨[], by simp⟩,
    id, id, id, id, id, id, id, fun _ => ⟨rfl, rfl⟩, fun _ => ⟨rfl, Or.inl rfl⟩⟩

theorem tone_set_monoX (f : InternalFeatures) (x : Nat) :
    MonoX f { f with tone_mapped_item_id := x } false :=
  ⟨⟨[], by simp⟩, ⟨[], by simp⟩, ⟨[], by simp⟩, ⟨[], by simp⟩,
    id, id, id, id, id, id, id, fun _ => ⟨rfl, rfl⟩, fun _ => ⟨rfl, Or.inl rfl⟩⟩

theorem iinf_set_monoX (f : InternalFeatures) :
    MonoX f { f with iinf_parsed := true } false :=
  ⟨⟨[], by simp⟩, ⟨[], by simp⟩, ⟨[], by simp⟩, ⟨[], by simp⟩,
    id, id, id, fun _ => rfl, id, id, id, fun _ => ⟨rfl, rfl⟩, fun _ => ⟨rfl, Or.inl rfl⟩⟩

theorem iref_set_monoX (f : InternalFeatures) :
    MonoX f { f with iref_parsed := true } false :=
  ⟨⟨[], by simp⟩, ⟨[], by simp⟩, ⟨[], by simp⟩, ⟨[], by simp⟩,
    id, id, id, id, fun _ => rfl, id, id, fun _ => ⟨rfl, rfl⟩, fun _ => ⟨rfl, Or.inl rfl⟩⟩

theorem Eff.err_refl (data : List Nat) (f : InternalFeatures) (e : InternalError) :
    Eff data f f (.error e) := by
  refine ⟨MonoX.selfX _ _, fun hi => ⟨hi.1, hi.2.2.1, hi.2.2.2, ?_, ?_⟩⟩
  · intro hc
    exact absurd hc (by simp)
  · intro e' _
    exact hi.2.1

theorem Eff.of_monoX_inv {data : List Nat} {f g : InternalFeatures} {e : InternalError}
    (hm : MonoX f g false) (hi : ∀ data', Inv data' f → Inv data' g) :
    Eff data f g (.error e) := by
  refine ⟨hm, fun hv => ⟨(hi data hv).1, (hi data hv).2.2.1, (hi data hv).2.2.2, ?_, ?_⟩⟩
  · intro hc
    exact absurd hc (by simp)
  · intro e' _
    exact (hi data hv).2.1

theorem Eff.trans_err {data : List Nat} {f g k : InternalFeatures} {e : InternalError}
    {r : InternalResult Unit} (h1 : Eff data f g (.error e)) (h2 : Eff data g k r) :
    Eff data f k r := by
  refine ⟨h1.1.transX h2.1, fun hi => ?_⟩
  have hg : Inv data g := by
    obtain ⟨c1, c2, c3, c4, c5⟩ := h1.2 hi
    exact ⟨c1, c5 e rfl, c2, c3⟩
  exact h2.2 hg

theorem parse_box_nb_le {nl : Nat} {s s' : Stream} {nb nb' : Nat} {b : InternalBox}
    (h : parse_box nl s nb = .ok (b, s', nb')) : nb ≤ nb' ∧ nb' ≤ nb + 1 := by
  obtain ⟨_, _, _, _, _, _, hc1, hc2⟩ := parse_box_ok h
  by_cases hc : nl = 0 ∧ b.box_type = ftypCC
  · rw [hc1 hc]; omega
  · have := hc2 (by tauto)
    omega

theorem parse_ipcoLoop_eff {fuel : Nat} {f f' : InternalFeatures} {nl : Nat} {s : Stream}
    {nb nb' bi : Nat} {r : InternalResult Unit} (hbi : bi ≠ 0)
    (h : parse_ipcoLoop fuel f nl s nb bi = (f', nb', r)) :
    MonoX f f' false ∧ (∀ data, Inv data f → Inv data f') ∧ nb ≤ nb' ∧ ∃ e, r = .error e := by
  induction fuel generalizing f s nb bi with
  | zero =>
    unfold parse_ipcoLoop at h
    cases h
    exact ⟨MonoX.selfX _ _, fun _ => id, le_refl _, _, rfl⟩
  | succ fuel ih =>
    unfold parse_ipcoLoop at h
    split at h
    · cases hpb : parse_box nl s nb with
      | error e =>
        rw [hpb] at h; cases h
        exact ⟨MonoX.selfX _ _, fun _ => id, le_refl _, _, rfl⟩
      | ok v =>
        obtain ⟨bf, s1, nb1⟩ := v
        rw [hpb] at h
        dsimp only at h
        have hnb1 := parse_box_nb_le hpb
        cases hsub : s1.substream bf.content_size with
        | error e =>
          rw [hsub] at h; cases h
          exact ⟨MonoX.selfX _ _, fun _ => id, by omega, _, rfl⟩
        | ok w =>
          obtain ⟨bs, s2⟩ := w
          rw [hsub] at h
          dsimp only at h
          cases hproc : ipco_process_box f bf bs bi with
          | mk f1 r1 =>
            rw [hproc] at h
            obtain ⟨hpm, hpinv, _, _, _⟩ := ipco_process_box_eff hbi hproc
            cases r1 with
            | error e =>
              dsimp only at h
              cases h
              exact ⟨hpm, hpinv, by omega, _, rfl⟩
            | ok u =>
              cases u
              dsimp only at h
              split at h
              · cases h
                exact ⟨hpm.transX (dws_monoX f1), fun data hi => hpinv data hi,
                  by omega, _, rfl⟩
              · obtain ⟨hm2, hi2, hnb2, he2⟩ := ih (by omega) h
                exact ⟨hpm.transX hm2, fun data hi => hi2 data (hpinv data hi),
                  by omega, he2⟩
    · cases h
      exact ⟨MonoX.selfX _ _, fun _ => id, le_refl _, _, rfl⟩

theorem parse_ipco_eff {f f' : InternalFeatures} {nl : Nat} {s : Stream} {nb nb' : Nat}
    {r : InternalResult Unit} (h : f.parse_ipco nl s nb = (f', nb', r)) :
    MonoX f f' false ∧ (∀ data, Inv data f → Inv data f') ∧ nb ≤ nb' ∧ ∃ e, r = .error e :=
  parse_ipcoLoop_eff (by omega) h

theorem ipmaAssoc_eff {f f' : InternalFeatures} {bs : Stream} {iid inb mask prop rem : Nat}
    {res : InternalResult (Stream × Bool)}
    (h : ipmaAssoc f bs iid inb mask prop rem = (f', res)) :
    MonoX f f' false ∧ (∀ data, Inv data f → Inv data f') := by
  induction rem generalizing f bs prop with
  | zero =>
    unfold ipmaAssoc at h
    cases h
    exact ⟨MonoX.selfX _ _, fun _ => id⟩
  | succ rem ih =>
    unfold ipmaAssoc at h
    split at h
    · cases h
      exact ⟨dws_monoX f, fun _ => id⟩
    · rename_i hlim
      cases hval : bs.read_uint inb with
      | error e =>
        rw [hval] at h; cases h
        exact ⟨MonoX.selfX _ _, fun _ => id⟩
      | ok v =>
        obtain ⟨value, bs1⟩ := v
        rw [hval] at h
        dsimp only at h
        split at h
        · rename_i hok
          obtain ⟨hm2, hi2⟩ := ih h
          refine ⟨(prop_append_monoX f _).transX hm2, fun data hi => hi2 data ?_⟩
          refine ⟨hi.1, hi.2.1, hi.2.2.1, ?_⟩
          have hl := hi.2.2.2
          refine ⟨hl.1, ?_, hl.2.2.1, hl.2.2.2⟩
          have hpl : ¬ (prop ≥ AVIFINFO_MAX_PROPS ∨ f.props.length ≥ AVIFINFO_MAX_PROPS) :=
            hlim
          simp only [List.length_append, List.length_cons, List.length_nil]
          unfold AVIFINFO_MAX_PROPS at hpl ⊢
          omega
        · obtain ⟨hm2, hi2⟩ := ih h
          exact ⟨(dws_monoX f).transX hm2, fun data hi => hi2 data hi⟩

theorem ipmaEntries_eff {f f' : InternalFeatures} {bs : Stream} {idb inb mask entry rem : Nat}
    {res : InternalResult Unit}
    (h : ipmaEntries f bs idb inb mask entry rem = (f', res)) :
    MonoX f f' false ∧ (∀ data, Inv data f → Inv data f') := by
  induction rem generalizing f bs entry with
  | zero =>
    unfold ipmaEntries at h
    cases h
    exact ⟨MonoX.selfX _ _, fun _ => id⟩
  | succ rem ih =>
    unfold ipmaEntries at h
    split at h
    · cases h
      exact ⟨dws_monoX f, fun _ => id⟩
    · cases hid : bs.read_uint idb with
      | error e =>
        rw [hid] at h; cases h
        exact ⟨MonoX.selfX _ _, fun _ => id⟩
      | ok v =>
        obtain ⟨iid, bs1⟩ := v
        rw [hid] at h
        dsimp only at h
        cases hac : bs1.read_u8 with
        | error e =>
          rw [hac] at h; cases h
          exact ⟨MonoX.selfX _ _, fun _ => id⟩
        | ok w =>
          obtain ⟨ac, bs2⟩ := w
          rw [hac] at h
          dsimp only at h
          cases hassoc : ipmaAssoc f bs2 iid inb mask 0 ac with
          | mk f1 r1 =>
            rw [hassoc] at h
            obtain ⟨ham, hai⟩ := ipmaAssoc_eff hassoc
            cases r1 with
            | error e =>
              dsimp only at h
              cases h
              exact ⟨ham, hai⟩
            | ok v1 =>
              obtain ⟨bs3, early⟩ := v1
              dsimp only at h
              split at h
              · cases h
                exact ⟨ham, hai⟩
              · obtain ⟨hm2, hi2⟩ := ih h
                exact ⟨ham.transX hm2, fun data hi => hi2 data (hai data hi)⟩

theorem parse_iprpLoop_eff {fuel : Nat} {f f' : InternalFeatures} {nl : Nat} {s : Stream}
    {nb nb' : Nat} {r : InternalResult Unit}
    (h : parse_iprpLoop fuel f nl s nb = (f', nb', r)) :
    (∀ data, Eff data f f' r) ∧ nb ≤ nb' := by
  induction fuel generalizing f s nb with
  | zero =>
    unfold parse_iprpLoop at h
    cases h
    exact ⟨fun data => Eff.err_refl data _ _, le_refl _⟩
  | succ fuel ih =>
    unfold parse_iprpLoop at h
    split at h
    · cases hpb : parse_box nl s nb with
      | error e =>
        rw [hpb] at h; cases h
        exact ⟨fun data => Eff.err_refl data _ _, le_refl _⟩
      | ok v =>
        obtain ⟨bf, s1, nb1⟩ := v
        rw [hpb] at h
        dsimp only at h
        have hnb1 := parse_box_nb_le hpb
        cases hsub : s1.substream bf.content_size with
        | error e =>
          rw [hsub] at h; cases h
          exact ⟨fun data => Eff.err_refl data _ _, by omega⟩
        | ok w =>
          obtain ⟨bs, s2⟩ := w
          rw [hsub] at h
          dsimp only at h
          split at h
          · -- ipco branch
            cases hipco : f.parse_ipco (nl + 1) bs nb1 with
            | mk f1 v1 =>
              obtain ⟨nb2, r1⟩ := v1
              rw [hipco] at h
              obtain ⟨him, hii, hinb, e1, he1⟩ := parse_ipco_eff hipco
              subst he1
              cases e1 with
              | NotFound =>
                dsimp only at h
                obtain ⟨heff, hnb2⟩ := ih h
                exact ⟨fun data => Eff.trans_err (Eff.of_monoX_inv him hii : Eff data _ _ (.error .NotFound)) (heff data),
                  by omega⟩
              | Truncated =>
                dsimp only at h; cases h
                exact ⟨fun data => Eff.of_monoX_inv him hii, by omega⟩
              | Aborted =>
                dsimp only at h; cases h
                exact ⟨fun data => Eff.of_monoX_inv him hii, by omega⟩
              | Invalid =>
                dsimp only at h; cases h
                exact ⟨fun data => Eff.of_monoX_inv him hii, by omega⟩
          · split at h
            · -- ipma branch
              cases hec : bs.read_u32 with
              | error e =>
                rw [hec] at h; cases h
                exact ⟨fun data => Eff.err_refl data _ _, by omega⟩
              | ok w1 =>
                obtain ⟨entry_count, bs1⟩ := w1
                rw [hec] at h
                dsimp only at h
                cases hent : ipmaEntries f bs1 (if bf.version < 1 then 2 else 4)
                    (if bf.flags &&& 1 ≠ 0 then 2 else 1)
                    (if bf.flags &&& 1 ≠ 0 then 32768 else 128) 0 entry_count with
                | mk f1 r1 =>
                  rw [hent] at h
                  obtain ⟨ham, hai⟩ := ipmaEntries_eff hent
                  cases r1 with
                  | error e =>
                    dsimp only at h; cases h
                    exact ⟨fun data => Eff.of_monoX_inv ham hai, by omega⟩
                  | ok u =>
                    cases u
                    dsimp only at h
                    cases hres : f1.get_primary_item_features with
                    | mk f2 r2 =>
                      rw [hres] at h
                      have hre := fun data => get_primary_item_features_eff hres data
                      cases r2 with
                      | ok u' =>
                        cases u'
                        dsimp only at h
                        cases h
                        exact ⟨fun data => Eff.trans_err (Eff.of_monoX_inv ham hai : Eff data _ _ (.error .NotFound)) (hre data), by omega⟩
                      | error e2 =>
                        cases e2 with
                        | NotFound =>
                          dsimp only at h
                          obtain ⟨heff, hnb2⟩ := ih h
                          refine ⟨fun data => ?_, by omega⟩
                          exact Eff.trans_err (Eff.of_monoX_inv ham hai : Eff data _ _ (.error .NotFound))
                            (Eff.trans_err (hre data) (heff data))
                        | Truncated =>
                          dsimp only at h; cases h
                          exact ⟨fun data => Eff.trans_err (Eff.of_monoX_inv ham hai : Eff data _ _ (.error .NotFound)) (hre data), by omega⟩
                        | Aborted =>
                          dsimp only at h; cases h
                          exact ⟨fun data => Eff.trans_err (Eff.of_monoX_inv ham hai : Eff data _ _ (.error .NotFound)) (hre data), by omega⟩
                        | Invalid =>
                          dsimp only at h; cases h
                          exact ⟨fun data => Eff.trans_err (Eff.of_monoX_inv ham hai : Eff data _ _ (.error .NotFound)) (hre data), by omega⟩
            · obtain ⟨heff, hnb2⟩ := ih h
              exact ⟨heff, by omega⟩
    · cases h
      exact ⟨fun data => Eff.err_refl data _ _, le_refl _⟩

theorem parse_iprp_eff {f f' : InternalFeatures} {nl : Nat} {s : Stream} {nb nb' : Nat}
    {r : InternalResult Unit} (h : f.parse_iprp nl s nb = (f', nb', r)) :
    (∀ data, Eff data f f' r) ∧ nb ≤ nb' :=
  parse_iprpLoop_eff h

theorem irefRefs_eff {f f' : InternalFeatures} {bs : Stream} {fid idb i rem : Nat}
    {res : InternalResult Unit}
    (h : irefRefs f bs fid idb i rem = (f', res)) :
    MonoX f f' false ∧ (∀ data, Inv data f → Inv data f') := by
  induction rem generalizing f bs i with
  | zero =>
    unfold irefRefs at h
    cases h
    exact ⟨MonoX.selfX _ _, fun _ => id⟩
  | succ rem ih =>
    unfold irefRefs at h
    split at h
    · cases h
      exact ⟨dws_monoX f, fun _ => id⟩
    · cases hval : bs.read_uint idb with
      | error e =>
        rw [hval] at h; cases h
        exact ⟨MonoX.selfX _ _, fun _ => id⟩
      | ok v =>
        obtain ⟨tid, bs1⟩ := v
        rw [hval] at h
        dsimp only at h
        split at h
        · rename_i hok
          obtain ⟨hm2, hi2⟩ := ih h
          refine ⟨(tile_append_monoX f _).transX hm2, fun data hi => hi2 data ?_⟩
          refine ⟨hi.1, hi.2.1, hi.2.2.1, ?_⟩
          have hl := hi.2.2.2
          refine ⟨?_, hl.2.1, hl.2.2.1, hl.2.2.2⟩
          have := hok.2.2
          simp only [List.length_append, List.length_cons, List.length_nil]
          unfold AVIFINFO_MAX_TILES at this ⊢
          omega
        · obtain ⟨hm2, hi2⟩ := ih h
          exact ⟨(dws_monoX f).transX hm2, fun data hi => hi2 data hi⟩

theorem parse_irefLoop_eff {fuel : Nat} {f f' : InternalFeatures} {nl : Nat} {s : Stream}
    {nb nb' : Nat} {r : InternalResult Unit}
    (h : parse_irefLoop fuel f nl s nb = (f', nb', r)) :
    (∀ data, Eff data f f' r) ∧ nb ≤ nb' := by
  induction fuel generalizing f s nb with
  | zero =>
    unfold parse_irefLoop at h
    cases h
    exact ⟨fun data => Eff.err_refl data _ _, le_refl _⟩
  | succ fuel ih =>
    unfold parse_irefLoop at h
    split at h
    · cases hpb : parse_box nl s nb with
      | error e =>
        rw [hpb] at h; cases h
        exact ⟨fun data => Eff.err_refl data _ _, le_refl _⟩
      | ok v =>
        obtain ⟨bf, s1, nb1⟩ := v
        rw [hpb] at h
        dsimp only at h
        have hnb1 := parse_box_nb_le hpb
        cases hsub : s1.substream bf.content_size with
        | error e =>
          rw [hsub] at h; cases h
          exact ⟨fun data => Eff.err_refl data _ _, by omega⟩
        | ok w =>
          obtain ⟨bs, s2⟩ := w
          rw [hsub] at h
          dsimp only at h
          split at h
          · -- dimg branch
            cases hfid : bs.read_uint (if bf.version = 0 then 2 else 4) with
            | error e =>
              rw [hfid] at h; cases h
              exact ⟨fun data => Eff.err_refl data _ _, by omega⟩
            | ok v1 =>
              obtain ⟨fid, bs1'⟩ := v1
              rw [hfid] at h
              dsimp only at h
              cases hrc : bs1'.read_u16 with
              | error e =>
                rw [hrc] at h; cases h
                exact ⟨fun data => Eff.err_refl data _ _, by omega⟩
              | ok v2 =>
                obtain ⟨rc, bs2'⟩ := v2
                rw [hrc] at h
                dsimp only at h
                cases hrefs : irefRefs f bs2' fid (if bf.version = 0 then 2 else 4) 0 rc with
                | mk f1 r1 =>
                  rw [hrefs] at h
                  obtain ⟨hrm, hri⟩ := irefRefs_eff hrefs
                  cases r1 with
                  | error e =>
                    dsimp only at h; cases h
                    exact ⟨fun data => Eff.of_monoX_inv hrm hri, by omega⟩
                  | ok u =>
                    cases u
                    dsimp only at h
                    cases hres : f1.get_primary_item_features with
                    | mk f2 r2 =>
                      rw [hres] at h
                      have hre := fun data => get_primary_item_features_eff hres data
                      cases r2 with
                      | ok u' =>
                        cases u'
                        dsimp only at h
                        cases h
                        exact ⟨fun data => Eff.trans_err (Eff.of_monoX_inv hrm hri : Eff data _ _ (.error .NotFound)) (hre data), by omega⟩
                      | error e2 =>
                        cases e2 with
                        | NotFound =>
                          dsimp only at h
                          obtain ⟨heff, hnb2⟩ := ih h
                          exact ⟨fun data => Eff.trans_err (Eff.of_monoX_inv hrm hri : Eff data _ _ (.error .NotFound))
                            (Eff.trans_err (hre data) (heff data)), by omega⟩
                        | Truncated =>
                          dsimp only at h; cases h
                          exact ⟨fun data => Eff.trans_err (Eff.of_monoX_inv hrm hri : Eff data _ _ (.error .NotFound)) (hre data), by omega⟩
                        | Aborted =>
                          dsimp only at h; cases h
                          exact ⟨fun data => Eff.trans_err (Eff.of_monoX_inv hrm hri : Eff data _ _ (.error .NotFound)) (hre data), by omega⟩
                        | Invalid =>
                          dsimp only at h; cases h
                          exact ⟨fun data => Eff.trans_err (Eff.of_monoX_inv hrm hri : Eff data _ _ (.error .NotFound)) (hre data), by omega⟩
          · obtain ⟨heff, hnb2⟩ := ih h
            exact ⟨heff, by omega⟩
    · cases h
      exact ⟨fun data => Eff.err_refl data _ _, le_refl _⟩

theorem parse_iref_eff {f f' : InternalFeatures} {nl : Nat} {s : Stream} {nb nb' : Nat}
    {r : InternalResult Unit} (h : f.parse_iref nl s nb = (f', nb', r)) :
    (∀ data, Eff data f f' r) ∧ nb ≤ nb' := by
  unfold InternalFeatures.parse_iref at h
  obtain ⟨heff, hnb⟩ := parse_irefLoop_eff h
  refine ⟨fun data => ?_, hnb⟩
  have h0 : Eff data f { f with iref_parsed := true } (.error .NotFound) :=
    Eff.of_monoX_inv (iref_set_monoX f) (fun _ => id)
  exact Eff.trans_err h0 (heff data)

theorem iinfEntries_eff {f f' : InternalFeatures} {nl : Nat} {s : Stream} {nb nb' rem : Nat}
    {r : InternalResult Unit}
    (h : iinfEntries f nl s nb rem = (f', nb', r)) :
    MonoX f f' false ∧ (∀ data, Inv data f → Inv data f') ∧ nb ≤ nb' ∧ ∃ e, r = .error e := by
  induction rem generalizing f s nb with
  | zero =>
    unfold iinfEntries at h
    cases h
    exact ⟨MonoX.selfX _ _, fun _ => id, le_refl _, _, rfl⟩
  | succ rem ih =>
    unfold iinfEntries at h
    cases hpb : parse_box nl s nb with
    | error e =>
      rw [hpb] at h; cases h
      exact ⟨MonoX.selfX _ _, fun _ => id, le_refl _, _, rfl⟩
    | ok v =>
      obtain ⟨bf, s1, nb1⟩ := v
      rw [hpb] at h
      dsimp only at h
      have hnb1 := parse_box_nb_le hpb
      cases hsub : s1.substream bf.content_size with
      | error e =>
        rw [hsub] at h; cases h
        exact ⟨MonoX.selfX _ _, fun _ => id, by omega, _, rfl⟩
      | ok w =>
        obtain ⟨bs, s2⟩ := w
        rw [hsub] at h
        dsimp only at h
        by_cases hbt : bf.box_type = infeCC
        · rw [if_pos hbt] at h
          cases hid : bs.read_uint (if bf.version = 2 then 2 else 4) with
          | error e =>
            rw [hid] at h
            dsimp only at h; cases h
            exact ⟨MonoX.selfX _ _, fun _ => id, by omega, _, rfl⟩
          | ok v1 =>
            obtain ⟨item_id, bsa⟩ := v1
            rw [hid] at h
            dsimp only at h
            cases hsk : bsa.skip 2 with
            | error e =>
              rw [hsk] at h
              dsimp only at h; cases h
              exact ⟨MonoX.selfX _ _, fun _ => id, by omega, _, rfl⟩
            | ok bsb =>
              rw [hsk] at h
              dsimp only at h
              cases h4 : bsb.read_4cc with
              | error e =>
                rw [h4] at h
                dsimp only at h; cases h
                exact ⟨MonoX.selfX _ _, fun _ => id, by omega, _, rfl⟩
              | ok v2 =>
                obtain ⟨item_type, bsc⟩ := v2
                rw [h4] at h
                dsimp only at h
                by_cases htm : item_type = tmapCC
                · rw [if_pos htm] at h
                  by_cases hle : item_id ≤ AVIFINFO_MAX_VALUE
                  · rw [if_pos hle] at h
                    dsimp only at h
                    split at h
                    · cases h
                      exact ⟨tone_set_monoX f item_id, fun _ => id, by omega, _, rfl⟩
                    · obtain ⟨hm2, hi2, hnb2, e2, he2⟩ := ih h
                      exact ⟨(tone_set_monoX f item_id).transX hm2,
                        fun data hi => hi2 data hi, by omega, e2, he2⟩
                  · rw [if_neg hle] at h
                    dsimp only at h
                    split at h
                    · cases h
                      exact ⟨dws_monoX f, fun _ => id, by omega, _, rfl⟩
                    · obtain ⟨hm2, hi2, hnb2, e2, he2⟩ := ih h
                      exact ⟨(dws_monoX f).transX hm2,
                        fun data hi => hi2 data hi, by omega, e2, he2⟩
                · rw [if_neg htm] at h
                  dsimp only at h
                  split at h
                  · cases h
                    exact ⟨MonoX.selfX _ _, fun _ => id, by omega, _, rfl⟩
                  · obtain ⟨hm2, hi2, hnb2, e2, he2⟩ := ih h
                    exact ⟨hm2, hi2, by omega, e2, he2⟩
        · rw [if_neg hbt] at h
          dsimp only at h
          split at h
          · cases h
            exact ⟨MonoX.selfX _ _, fun _ => id, by omega, _, rfl⟩
          · obtain ⟨hm2, hi2, hnb2, e2, he2⟩ := ih h
            exact ⟨hm2, hi2, by omega, e2, he2⟩

theorem parse_iinf_eff {f f' : InternalFeatures} {nl : Nat} {s : Stream} {bv nb nb' : Nat}
    {r : InternalResult Unit} (h : f.parse_iinf nl s bv nb = (f', nb', r)) :
    MonoX f f' false ∧ (∀ data, Inv data f → Inv data f') ∧ nb ≤ nb' ∧ ∃ e, r = .error e := by
  unfold InternalFeatures.parse_iinf at h
  dsimp only at h
  cases hec : s.read_uint (if bv = 0 then 2 else 4) with
  | error e =>
    rw [hec] at h; cases h
    exact ⟨iinf_set_monoX f, fun _ => id, le_refl _, _, rfl⟩
  | ok v =>
    obtain ⟨entry_count, s1⟩ := v
    rw [hec] at h
    dsimp only at h
    obtain ⟨hm2, hi2, hnb2, e2, he2⟩ := iinfEntries_eff h
    exact ⟨(iinf_set_monoX f).transX hm2, fun data hi => hi2 data hi, hnb2, e2, he2⟩

/-- The stream views the original buffer `data` starting at absolute
offset `base`: its backing bytes are a prefix of `data.drop base`. -/
def Window (data : List Nat) (base : Nat) (s : Stream) : Prop :=
  ∀ d, s.data = some d → base + d.length ≤ data.length ∧ d = (data.drop base).take d.length

theorem window_top (data : List Nat) :
    Window data 0 { data := some data, size := none, offset := 0 } := by
  intro d hd
  injection hd with hd
  subst hd
  simp

theorem window_data_eq {data : List Nat} {base : Nat} {s s' : Stream}
    (hde : s'.data = s.data) (hw : Window data base s) : Window data base s' := by
  intro d hd
  exact hw d (hde ▸ hd)

theorem window_slice {data d : List Nat} {B off n : Nat}
    (hd : d = (data.drop B).take d.length) (hlen : off + n ≤ d.length) :
    (d.drop off).take n = (data.drop (B + off)).take n := by
  conv_lhs => rw [hd]
  rw [List.drop_take, List.take_take, List.drop_drop]
  congr 1
  omega

theorem window_substream {data : List Nat} {B : Nat} {s c s' : Stream} {cs : Option Nat}
    (hw : Window data B s) (h : s.substream cs = .ok (c, s')) :
    Window data (B + s.offset) c := by
  intro w hwc
  obtain ⟨-, -, -, -, -, -, hest⟩ := Stream.substream_ok h
  obtain ⟨d, hd, hlen, hweq, -⟩ := hest w hwc
  obtain ⟨hbl, hdeq⟩ := hw d hd
  refine ⟨by omega, ?_⟩
  rw [← window_slice hdeq hlen]
  exact hweq

theorem window_read_uint {data : List Nat} {B : Nat} {s s' : Stream} {v k : Nat}
    (hw : Window data B s) (h : s.read_uint k = .ok (v, s')) :
    B + s.offset + k ≤ data.length ∧ v = sliceBE data (B + s.offset) k := by
  obtain ⟨-, -, -, -, -, -, d, hd, hlen, hv⟩ := Stream.read_uint_ok h
  obtain ⟨hbl, hdeq⟩ := hw d hd
  refine ⟨by omega, ?_⟩
  rw [hv]
  unfold sliceBE
  rw [window_slice hdeq hlen]

theorem pitm_set_monoX (f : InternalFeatures) (pid loc nbid : Nat) :
    MonoX f { f with
      has_primary_item := true
      primary_item_id := pid
      primary_item_features := { f.primary_item_features with
        primary_item_id_location := loc
        primary_item_id_bytes := nbid } } false :=
  ⟨⟨[], by simp⟩, ⟨[], by simp⟩, ⟨[], by simp⟩, ⟨[], by simp⟩,
    fun _ => rfl, id, id, id, id, id, id, fun _ => ⟨rfl, rfl⟩, fun _ => ⟨rfl, Or.inl rfl⟩⟩

theorem parse_metaLoop_eff {fuel : Nat} {data : List Nat} {f f' : InternalFeatures}
    {nl so : Nat} {s : Stream} {nb nb' : Nat} {r : InternalResult Unit}
    (hw : Window data so s)
    (h : parse_metaLoop fuel f nl so s nb = (f', nb', r)) :
    Eff data f f' r ∧ nb ≤ nb' := by
  induction fuel generalizing f s nb hw with
  | zero =>
    unfold parse_metaLoop at h
    cases h
    exact ⟨Eff.err_refl data _ _, le_refl _⟩
  | succ fuel ih =>
    unfold parse_metaLoop at h
    split at h
    · cases hpb : parse_box nl s nb with
      | error e =>
        rw [hpb] at h; cases h
        exact ⟨Eff.err_refl data _ _, le_refl _⟩
      | ok v =>
        obtain ⟨bf, s1, nb1⟩ := v
        rw [hpb] at h
        dsimp only at h
        have hnb1 := parse_box_nb_le hpb
        have hw1 : Window data so s1 := window_data_eq (parse_box_ok hpb).1 hw
        cases hsub : s1.substream bf.content_size with
        | error e =>
          rw [hsub] at h; cases h
          exact ⟨Eff.err_refl data _ _, by omega⟩
        | ok w =>
          obtain ⟨bs, s2⟩ := w
          rw [hsub] at h
          dsimp only at h
          have hw2 : Window data so s2 :=
            window_data_eq (Stream.substream_ok hsub).1 hw1
          have hwbs : Window data (so + s1.offset) bs := window_substream hw1 hsub
          by_cases hbt1 : bf.box_type = pitmCC
          · rw [if_pos hbt1] at h
            cases hca : checkedAdd so s1.num_read_bytes with
            | none =>
              rw [hca] at h
              dsimp only at h; cases h
              exact ⟨Eff.err_refl data _ _, by omega⟩
            | some loc =>
              rw [hca] at h
              dsimp only at h
              cases hread : bs.read_uint (if bf.version = 0 then 2 else 4) with
              | error e =>
                rw [hread] at h
                dsimp only at h; cases h
                exact ⟨Eff.err_refl data _ _, by omega⟩
              | ok v1 =>
                obtain ⟨pid, bs1⟩ := v1
                rw [hread] at h
                dsimp only at h
                split at h
                · cases h
                  exact ⟨Eff.err_refl data _ _, by omega⟩
                · have hloc : loc = so + s1.offset := by
                    unfold checkedAdd at hca
                    split at hca
                    · exact (Option.some.inj hca).symm
                    · cases hca
                  obtain ⟨hle2, hv⟩ := window_read_uint hwbs hread
                  have hc0 : bs.offset = 0 := (Stream.substream_ok hsub).2.2.2.2.1
                  rw [hc0, Nat.add_zero] at hle2 hv
                  have h1 : Eff data f { f with
                      has_primary_item := true
                      primary_item_id := pid
                      primary_item_features := { f.primary_item_features with
                        primary_item_id_location := loc
                        primary_item_id_bytes := if bf.version = 0 then 2 else 4 } }
                      (.error .NotFound) := by
                    refine ⟨pitm_set_monoX f pid loc _, fun hi => ?_⟩
                    refine ⟨hi.1, ?_, hi.2.2.2, fun hc => absurd hc (by simp),
                      fun e' _ => hi.2.1⟩
                    intro _
                    refine ⟨?_, ?_, ?_⟩
                    · show loc + (if bf.version = 0 then 2 else 4) ≤ data.length
                      omega
                    · show sliceBE data loc (if bf.version = 0 then 2 else 4) = pid
                      rw [hloc]
                      exact hv.symm
                    · show (if bf.version = 0 then 2 else 4) = 2 ∨
                        (if bf.version = 0 then 2 else 4) = 4
                      split
                      · exact Or.inl rfl
                      · exact Or.inr rfl
                  obtain ⟨heff, hnb2⟩ := ih hw2 h
                  exact ⟨Eff.trans_err h1 heff, by omega⟩
          · rw [if_neg hbt1] at h
            by_cases hbt2 : bf.box_type = iprpCC
            · rw [if_pos hbt2] at h
              cases hp : f.parse_iprp (nl + 1) bs nb1 with
              | mk f1 v1 =>
                obtain ⟨nb2, r1⟩ := v1
                rw [hp] at h
                obtain ⟨heffp, hnbp⟩ := parse_iprp_eff hp
                cases r1 with
                | ok u =>
                  cases u
                  dsimp only at h; cases h
                  exact ⟨heffp data, by omega⟩
                | error e1 =>
                  cases e1 with
                  | NotFound =>
                    dsimp only at h
                    obtain ⟨heff, hnb2⟩ := ih hw2 h
                    exact ⟨Eff.trans_err (heffp data) heff, by omega⟩
                  | Truncated =>
                    dsimp only at h; cases h
                    exact ⟨heffp data, by omega⟩
                  | Aborted =>
                    dsimp only at h; cases h
                    exact ⟨heffp data, by omega⟩
                  | Invalid =>
                    dsimp only at h; cases h
                    exact ⟨heffp data, by omega⟩
            · rw [if_neg hbt2] at h
              by_cases hbt3 : bf.box_type = irefCC
              · rw [if_pos hbt3] at h
                cases hp : f.parse_iref (nl + 1) bs nb1 with
                | mk f1 v1 =>
                  obtain ⟨nb2, r1⟩ := v1
                  rw [hp] at h
                  obtain ⟨heffp, hnbp⟩ := parse_iref_eff hp
                  cases r1 with
                  | ok u =>
                    cases u
                    dsimp only at h; cases h
                    exact ⟨heffp data, by omega⟩
                  | error e1 =>
                    cases e1 with
                    | NotFound =>
                      dsimp only at h
                      obtain ⟨heff, hnb2⟩ := ih hw2 h
                      exact ⟨Eff.trans_err (heffp data) heff, by omega⟩
                    | Truncated =>
                      dsimp only at h; cases h
                      exact ⟨heffp data, by omega⟩
                    | Aborted =>
                      dsimp only at h; cases h
                      exact ⟨heffp data, by omega⟩
                    | Invalid =>
                      dsimp only at h; cases h
                      exact ⟨heffp data, by omega⟩
              · rw [if_neg hbt3] at h
                by_cases hbt4 : bf.box_type = iinfCC
                · rw [if_pos hbt4] at h
                  cases hp : f.parse_iinf (nl + 1) bs bf.version nb1 with
                  | mk f1 v1 =>
                    obtain ⟨nb2, r1⟩ := v1
                    rw [hp] at h
                    obtain ⟨hm1, hi1, hnbp, e1, he1⟩ := parse_iinf_eff hp
                    subst he1
                    cases e1 with
                    | NotFound =>
                      dsimp only at h
                      obtain ⟨heff, hnb2⟩ := ih hw2 h
                      exact ⟨Eff.trans_err (Eff.of_monoX_inv hm1 hi1 : Eff data _ _ (.error .NotFound)) heff, by omega⟩
                    | Truncated =>
                      dsimp only at h; cases h
                      exact ⟨Eff.of_monoX_inv hm1 hi1, by omega⟩
                    | Aborted =>
                      dsimp only at h; cases h
                      exact ⟨Eff.of_monoX_inv hm1 hi1, by omega⟩
                    | Invalid =>
                      dsimp only at h; cases h
                      exact ⟨Eff.of_monoX_inv hm1 hi1, by omega⟩
                · rw [if_neg hbt4] at h
                  obtain ⟨heff, hnb2⟩ := ih hw2 h
                  exact ⟨heff, by omega⟩
    · cases h
      exact ⟨Eff.err_refl data _ _, le_refl _⟩

theorem parse_meta_eff {data : List Nat} {f f' : InternalFeatures} {nl so : Nat}
    {s : Stream} {nb nb' : Nat} {r : InternalResult Unit}
    (hw : Window data so s) (h : f.parse_meta nl so s nb = (f', nb', r)) :
    Eff data f f' r ∧ nb ≤ nb' := by
  unfold InternalFeatures.parse_meta at h
  exact parse_metaLoop_eff hw h

theorem parse_fileLoop_eff {fuel : Nat} {data : List Nat} {f f' : InternalFeatures}
    {s : Stream} {nb nb' : Nat} {r : InternalResult Unit}
    (hw : Window data 0 s)
    (h : parse_fileLoop fuel f s nb = (f', nb', r)) :
    Eff data f f' r ∧ nb ≤ nb' := by
  induction fuel generalizing f s nb hw with
  | zero =>
    unfold parse_fileLoop at h
    cases h
    exact ⟨Eff.err_refl data _ _, le_refl _⟩
  | succ fuel ih =>
    unfold parse_fileLoop at h
    cases hpb : parse_box 0 s nb with
    | error e =>
      rw [hpb] at h; cases h
      exact ⟨Eff.err_refl data _ _, le_refl _⟩
    | ok v =>
      obtain ⟨bf, s1, nb1⟩ := v
      rw [hpb] at h
      dsimp only at h
      have hnb1 := parse_box_nb_le hpb
      have hw1 : Window data 0 s1 := window_data_eq (parse_box_ok hpb).1 hw
      cases hsub : s1.substream bf.content_size with
      | error e =>
        rw [hsub] at h; cases h
        exact ⟨Eff.err_refl data _ _, by omega⟩
      | ok w =>
        obtain ⟨bs, s2⟩ := w
        rw [hsub] at h
        dsimp only at h
        split at h
        · have hwbs : Window data (0 + s1.offset) bs := window_substream hw1 hsub
          rw [Nat.zero_add] at hwbs
          obtain ⟨heff, hnb2⟩ := parse_meta_eff hwbs h
          exact ⟨heff, by omega⟩
        · split at h
          · cases h
            exact ⟨Eff.err_refl data _ _, by omega⟩
          · have hw2 : Window data 0 s2 :=
              window_data_eq (Stream.substream_ok hsub).1 hw1
            obtain ⟨heff, hnb2⟩ := ih hw2 h
            exact ⟨heff, by omega⟩

theorem Inv_init (data : List Nat) : Inv data {} := by
  refine ⟨fun c hc => absurd hc (by simp [InternalFeatures]), Or.inl ⟨rfl, rfl⟩,
    fun hc => absurd hc (by simp [InternalFeatures]), ?_⟩
  refine ⟨?_, ?_, ?_, ?_⟩ <;> simp [InternalFeatures, AVIFINFO_MAX_TILES,
    AVIFINFO_MAX_PROPS, AVIFINFO_MAX_FEATURES]

theorem get_featuresFull_eff {data : List Nat} {f' : InternalFeatures} {nb' : Nat}
    {r : InternalResult Unit} (h : get_featuresFull data = (f', nb', r)) :
    Eff data {} f' r := by
  unfold get_featuresFull InternalFeatures.parse_file at h
  exact (parse_fileLoop_eff (window_top data) h).1

/-! Claim theorems. -/

/-- C6: full input/output characterisation of `Stream::skip` and
`Stream::read` (amended).  `skip` fails with `Aborted` on offset overflow
and with `Invalid` when the cursor would exceed the declared parent size;
`read` additionally returns `Truncated` when the bytes are not available
in the data.  Contrary to the claim, exceeding the declared parent size in
`read` yields `Invalid` (propagated from `skip`), not `Aborted`. -/
theorem C6_claim (s : Stream) (n : Nat) :
    s.skip n = (if USIZE_MAX < s.offset + n then .error .Aborted
      else match s.size with
        | some sz =>
          if sz < s.offset + n then .error .Invalid
          else .ok { s with offset := s.offset + n }
        | none => .ok { s with offset := s.offset + n }) ∧
    s.read n = (if n = 0 then .ok ([], s)
      else if USIZE_MAX < s.offset + n then .error .Aborted
      else match s.size with
        | some sz =>
          if sz < s.offset + n then .error .Invalid
          else match s.data with
            | some d =>
              if s.offset + n ≤ d.length then
                .ok ((d.drop s.offset).take n, { s with offset := s.offset + n })
              else .error .Truncated
            | none => .error .Truncated
        | none => match s.data with
            | some d =>
              if s.offset + n ≤ d.length then
                .ok ((d.drop s.offset).take n, { s with offset := s.offset + n })
              else .error .Truncated
            | none => .error .Truncated) := by
  have hskip : s.skip n = (if USIZE_MAX < s.offset + n then .error .Aborted
      else match s.size with
        | some sz =>
          if sz < s.offset + n then .error .Invalid
          else .ok { s with offset := s.offset + n }
        | none => .ok { s with offset := s.offset + n }) := by
    unfold Stream.skip checkedAdd
    by_cases hov : s.offset + n ≤ USIZE_MAX
    · rw [if_pos hov, if_neg (by omega)]
    · rw [if_neg hov, if_pos (by omega)]
  refine ⟨hskip, ?_⟩
  unfold Stream.read
  by_cases hn : n = 0
  · rw [if_pos hn, if_pos hn]
  · rw [if_neg hn, if_neg hn, hskip]
    by_cases hov : USIZE_MAX < s.offset + n
    · rw [if_pos hov, if_pos hov]
    · rw [if_neg hov, if_neg hov]
      cases hsz : s.size with
      | some sz =>
        dsimp only
        by_cases hgt : sz < s.offset + n
        · rw [if_pos hgt]
          rw [if_pos hgt]
        · rw [if_neg hgt]
          rw [if_neg hgt]
      | none => dsimp only

/-- C6 counterexample: a read that runs past the declared parent size
fails with `Invalid`, not with `Aborted` as the claim states. -/
theorem C6_counterexample :
    Stream.read { data := some [0, 0, 0], size := some 2, offset := 0 } 3 =
      .error .Invalid ∧ InternalError.Invalid ≠ InternalError.Aborted := by
  decide

/-- After the two gain-map scans succeeded in setting `has_gainmap`, the
rest of the resolver (feature join and alpha bump) never touches the
gain-map pair of `primary_item_features`. -/
theorem resolver_keeps_gain {f : InternalFeatures}
    (hp : f.has_primary_item = true) (hd : f.dim_props.length ≠ 0)
    (hc : f.chan_props.length ≠ 0)
    (hg2 : (adobe_scan (heif_scan f)).primary_item_features.has_gainmap = true) :
    (f.get_primary_item_features).1.primary_item_features.has_gainmap = true ∧
    (f.get_primary_item_features).1.primary_item_features.gainmap_item_id =
      (adobe_scan (heif_scan f)).primary_item_features.gainmap_item_id := by
  unfold InternalFeatures.get_primary_item_features
  rw [if_neg (by simp [hp])]
  rw [if_neg (by push_neg; exact ⟨hd, hc⟩)]
  dsimp only
  rw [if_neg (by simp [hg2])]
  cases hgif : (adobe_scan (heif_scan f)).get_item_features
      (adobe_scan (heif_scan f)).primary_item_id 0 with
  | mk f3 r3 =>
    have hfr := ((InternalFeatures.get_item_features_eff hgif).1).1
    have hhg : f3.primary_item_features.has_gainmap =
        (adobe_scan (heif_scan f)).primary_item_features.has_gainmap :=
      hfr.2.2.2.2.2.2.2.2.2.2.2.2.1
    have hgi : f3.primary_item_features.gainmap_item_id =
        (adobe_scan (heif_scan f)).primary_item_features.gainmap_item_id :=
      hfr.2.2.2.2.2.2.2.2.2.2.2.2.2.1
    cases r3 with
    | ok u =>
      cases u
      dsimp only
      split
      · exact ⟨by rw [← hhg] at hg2; exact hg2, hgi⟩
      · exact ⟨by rw [← hhg] at hg2; exact hg2, hgi⟩
    | error e =>
      dsimp only
      exact ⟨by rw [← hhg] at hg2; exact hg2, hgi⟩

/-- C5: in `get_primary_item_features`, gain-map discovery proceeds in
order (HEIF tile scan first, then the Adobe property scan), and when
neither succeeded the resolver returns `NotFound` unchanged whenever
`iinf` has not been fully parsed, or a `tmap` item was announced but
`iref` has not been fully parsed. -/
theorem C5_claim {f : InternalFeatures}
    (hp : f.has_primary_item = true) (hd : f.dim_props.length ≠ 0)
    (hc : f.chan_props.length ≠ 0)
    (hg : f.primary_item_features.has_gainmap = false) :
    (∀ t : InternalTile, f.tone_mapped_item_id ≠ AVIFINFO_UNDEFINED →
      f.tiles.find? (fun u => u.parent_item_id == f.tone_mapped_item_id &&
        u.dimg_idx == 1) = some t →
      (f.get_primary_item_features).1.primary_item_features.has_gainmap = true ∧
      (f.get_primary_item_features).1.primary_item_features.gainmap_item_id =
        t.tile_item_id) ∧
    (∀ p : InternalProp, (f.tone_mapped_item_id = AVIFINFO_UNDEFINED ∨
        f.tiles.find? (fun u => u.parent_item_id == f.tone_mapped_item_id &&
          u.dimg_idx == 1) = none) →
      f.gainmap_property_index > 0 →
      f.props.find? (fun q => q.property_index == f.gainmap_property_index) = some p →
      (f.get_primary_item_features).1.primary_item_features.has_gainmap = true ∧
      (f.get_primary_item_features).1.primary_item_features.gainmap_item_id =
        p.item_id) ∧
    ((f.tone_mapped_item_id = AVIFINFO_UNDEFINED ∨
        f.tiles.find? (fun u => u.parent_item_id == f.tone_mapped_item_id &&
          u.dimg_idx == 1) = none) →
      (f.gainmap_property_index = 0 ∨
        f.props.find? (fun q => q.property_index == f.gainmap_property_index) = none) →
      (f.iinf_parsed = false ∨
        (f.tone_mapped_item_id ≠ AVIFINFO_UNDEFINED ∧ f.iref_parsed = false)) →
      f.get_primary_item_features = (f, .error .NotFound)) := by
  refine ⟨?_, ?_, ?_⟩
  · intro t ht hfind
    have hH : heif_scan f = { f with primary_item_features :=
        { f.primary_item_features with
          has_gainmap := true
          gainmap_item_id := t.tile_item_id } } := by
      unfold heif_scan
      rw [if_pos ht, hfind]
    have hA : adobe_scan (heif_scan f) = heif_scan f := by
      rw [hH]
      unfold adobe_scan
      rw [if_neg (by simp)]
    have hg2 : (adobe_scan (heif_scan f)).primary_item_features.has_gainmap = true := by
      rw [hA, hH]
    obtain ⟨h1, h2⟩ := resolver_keeps_gain hp hd hc hg2
    refine ⟨h1, ?_⟩
    rw [h2, hA, hH]
  · intro p ht hgp hfind
    have hH : heif_scan f = f := by
      unfold heif_scan
      rcases ht with ht | ht
      · rw [if_neg (by simp [ht])]
      · by_cases hcnd : f.tone_mapped_item_id ≠ AVIFINFO_UNDEFINED
        · rw [if_pos hcnd, ht]
        · rw [if_neg hcnd]
    have hA : adobe_scan (heif_scan f) = { f with primary_item_features :=
        { f.primary_item_features with
          has_gainmap := true
          gainmap_item_id := p.item_id } } := by
      rw [hH]
      unfold adobe_scan
      rw [if_pos (by simp [hg, hgp]), hfind]
    have hg2 : (adobe_scan (heif_scan f)).primary_item_features.has_gainmap = true := by
      rw [hA]
    obtain ⟨h1, h2⟩ := resolver_keeps_gain hp hd hc hg2
    refine ⟨h1, ?_⟩
    rw [h2, hA]
  · intro ht ha hgate
    have hH : heif_scan f = f := by
      unfold heif_scan
      rcases ht with ht | ht
      · rw [if_neg (by simp [ht])]
      · by_cases hcnd : f.tone_mapped_item_id ≠ AVIFINFO_UNDEFINED
        · rw [if_pos hcnd, ht]
        · rw [if_neg hcnd]
    have hA : adobe_scan (heif_scan f) = f := by
      rw [hH]
      unfold adobe_scan
      rcases ha with ha | ha
      · rw [if_neg (by simp [ha])]
      · by_cases hcnd : (!f.primary_item_features.has_gainmap) = true ∧
            f.gainmap_property_index > 0
        · rw [if_pos hcnd, ha]
        · rw [if_neg hcnd]
    unfold InternalFeatures.get_primary_item_features
    rw [if_neg (by simp [hp])]
    rw [if_neg (by push_neg; exact ⟨hd, hc⟩)]
    dsimp only
    rw [hA]
    rw [if_pos ?_]
    refine ⟨by simp [hg], ?_⟩
    rcases hgate with hgate | ⟨hg1, hg2'⟩
    · exact Or.inl (by simp [hgate])
    · exact Or.inr ⟨hg1, by simp [hg2']⟩

def c5f : InternalFeatures := {
  has_primary_item := true
  tone_mapped_item_id := 5
  tiles := [{ tile_item_id := 7, parent_item_id := 5, dimg_idx := 1 }]
  dim_props := [{ property_index := 1, width := 1, height := 1 }]
  chan_props := [{ property_index := 2, bit_depth := 8, num_channels := 3 }] }

theorem C5_witness :
    (c5f.get_primary_item_features).1.primary_item_features.has_gainmap = true ∧
    (c5f.get_primary_item_features).1.primary_item_features.gainmap_item_id = 7 :=
  (@C5_claim c5f (by decide) (by decide) (by decide) (by decide)).1
    { tile_item_id := 7, parent_item_id := 5, dimg_idx := 1 } (by decide) (by decide)

def c7IspeBytes : List Nat := [0, 0, 0, 20, 105, 115, 112, 101, 0, 0, 0, 0, 0, 0, 0, 1, 0, 0, 0, 1]

def c7Stream : Stream := { data := some c7IspeBytes, size := some 20, offset := 0 }

/-- C7: `parse_ipco` numbers properties by physical 1-based position:
the walk starts at `box_index` 1 (definitional), each appended dim or
chan record (and a recorded gain-map property index) carries the current
`box_index`, and one loop step taken at `box_index` 255 (after the 255th
property was processed successfully) latches `data_was_skipped` and ends
the walk with `NotFound`. -/
theorem C7_claim :
    (∀ (f : InternalFeatures) (nl : Nat) (s : Stream) (nb : Nat),
      f.parse_ipco nl s nb = parse_ipcoLoop (s.measure + 1) f nl s nb 1) ∧
    (∀ (f f' : InternalFeatures) (bf : InternalBox) (bs : Stream) (bi : Nat)
        (r : InternalResult Unit), bi ≠ 0 → ipco_process_box f bf bs bi = (f', r) →
      (f'.dim_props = f.dim_props ∨ ∃ dp : InternalDimProp, dp.property_index = bi ∧
        f'.dim_props = f.dim_props ++ [dp]) ∧
      (f'.chan_props = f.chan_props ∨ ∃ cp : InternalChanProp, cp.property_index = bi ∧
        f'.chan_props = f.chan_props ++ [cp]) ∧
      (f'.gainmap_property_index = f.gainmap_property_index ∨
        f'.gainmap_property_index = bi)) ∧
    (∀ (fuel : Nat) (f f1 : InternalFeatures) (nl : Nat) (s s1 bs s2 : Stream)
        (nb nb1 : Nat) (bf : InternalBox),
      s.has_more_bytes = true → parse_box nl s nb = .ok (bf, s1, nb1) →
      s1.substream bf.content_size = .ok (bs, s2) →
      ipco_process_box f bf bs AVIFINFO_MAX_VALUE = (f1, .ok ()) →
      parse_ipcoLoop (fuel + 1) f nl s nb AVIFINFO_MAX_VALUE =
        ({ f1 with data_was_skipped := true }, nb1, .error .NotFound)) := by
  refine ⟨fun f nl s nb => rfl, ?_, ?_⟩
  · intro f f' bf bs bi r hbi h
    obtain ⟨-, -, hdim, hchan, hgpi⟩ := ipco_process_box_eff hbi h
    refine ⟨hdim, ?_, hgpi⟩
    rcases hchan with hchan | ⟨cp, hcp1, -, hcp2⟩
    · exact Or.inl hchan
    · exact Or.inr ⟨cp, hcp1, hcp2⟩
  · intro fuel f f1 nl s s1 bs s2 nb nb1 bf hmore hpb hsub hproc
    unfold parse_ipcoLoop
    rw [if_pos hmore]
    rw [hpb]
    dsimp only
    rw [hsub]
    dsimp only
    rw [hproc]
    dsimp only
    rw [if_pos rfl]

set_option maxRecDepth 10000 in
theorem C7_witness :
    parse_ipcoLoop 1 {} 2 c7Stream 0 AVIFINFO_MAX_VALUE =
      ({ dim_props := [{ property_index := 255, width := 1, height := 1 }]
         data_was_skipped := true }, 1, .error .NotFound) :=
  C7_claim.2.2 0 {} { dim_props := [{ property_index := 255, width := 1, height := 1 }] }
    2 c7Stream
    { data := some c7IspeBytes, size := some 20, offset := 12 }
    { data := some [0, 0, 0, 1, 0, 0, 0, 1], size := some 8, offset := 0 }
    { data := some c7IspeBytes, size := some 20, offset := 20 }
    0 1 { box_type := ispeCC, version := 0, flags := 0, content_size := some 8 }
    (by decide) (by decide) (by decide) (by decide)

def c2Bytes : List Nat :=
  [0, 0, 0, 111, 109, 101, 116, 97, 0, 0, 0, 0,
   0, 0, 0, 14, 112, 105, 116, 109, 0, 0, 0, 0, 0, 1,
   0, 0, 0, 14, 105, 105, 110, 102, 0, 0, 0, 0, 0, 0,
   0, 0, 0, 71, 105, 112, 114, 112,
   0, 0, 0, 42, 105, 112, 99, 111,
   0, 0, 0, 20, 105, 115, 112, 101, 0, 0, 0, 0, 0, 0, 0, 1, 0, 0, 0, 1,
   0, 0, 0, 14, 112, 105, 120, 105, 0, 0, 0, 0, 1, 7,
   0, 0, 0, 21, 105, 112, 109, 97, 0, 0, 0, 0, 0, 0, 0, 1, 0, 1, 2, 1, 2]

def c2okBytes : List Nat :=
  [0, 0, 0, 111, 109, 101, 116, 97, 0, 0, 0, 0,
   0, 0, 0, 14, 112, 105, 116, 109, 0, 0, 0, 0, 0, 1,
   0, 0, 0, 14, 105, 105, 110, 102, 0, 0, 0, 0, 0, 0,
   0, 0, 0, 71, 105, 112, 114, 112,
   0, 0, 0, 42, 105, 112, 99, 111,
   0, 0, 0, 20, 105, 115, 112, 101, 0, 0, 0, 0, 0, 0, 0, 1, 0, 0, 0, 1,
   0, 0, 0, 14, 112, 105, 120, 105, 0, 0, 0, 0, 1, 8,
   0, 0, 0, 21, 105, 112, 109, 97, 0, 0, 0, 0, 0, 0, 0, 1, 0, 1, 2, 1, 2]

def c3Bytes : List Nat :=
  [0, 0, 0, 111, 109, 101, 116, 97, 0, 0, 0, 0,
   0, 0, 0, 14, 112, 105, 116, 109, 0, 0, 0, 0, 0, 1,
   0, 0, 0, 14, 105, 105, 110, 102, 0, 0, 0, 0, 0, 0,
   0, 0, 0, 71, 105, 112, 114, 112,
   0, 0, 0, 42, 105, 112, 99, 111,
   0, 0, 0, 20, 105, 115, 112, 101, 0, 0, 0, 0, 0, 0, 0, 1, 0, 0, 0, 1,
   0, 0, 0, 14, 112, 105, 120, 105, 0, 0, 0, 0, 1, 10,
   0, 0, 0, 21, 105, 112, 109, 97, 0, 0, 0, 0, 0, 0, 0, 1, 0, 1, 2, 1, 2]

def c4Bytes : List Nat :=
  [0, 0, 0, 108, 109, 101, 116, 97, 0, 0, 0, 0,
   0, 0, 0, 14, 112, 105, 116, 109, 0, 0, 0, 0, 0, 1,
   0, 0, 0, 68, 105, 112, 114, 112,
   0, 0, 0, 39, 105, 112, 99, 111,
   0, 0, 0, 20, 105, 115, 112, 101, 0, 0, 0, 0, 0, 0, 0, 1, 0, 0, 0, 1,
   0, 0, 0, 11, 97, 118, 49, 67, 129, 12, 0,
   0, 0, 0, 21, 105, 112, 109, 97, 0, 0, 0, 0, 0, 0, 0, 1, 0, 1, 2, 1, 2,
   0, 0, 0, 14, 105, 105, 110, 102, 0, 0, 0, 0, 0, 0]

/-- The accumulator state produced by `get_featuresFull` on `c2okBytes`
(a minimal valid file: meta with pitm, iinf, iprp/ipco(ispe, pixi), ipma). -/
def c2okF : InternalFeatures := {
  has_primary_item := true
  primary_item_id := 1
  primary_item_features := {
    width := 1
    height := 1
    bit_depth := 8
    num_channels := 1
    primary_item_id_location := 24
    primary_item_id_bytes := 2 }
  iinf_parsed := true
  props := [{ property_index := 1, item_id := 1 }, { property_index := 2, item_id := 1 }]
  dim_props := [{ property_index := 1, width := 1, height := 1 }]
  chan_props := [{ property_index := 2, bit_depth := 8, num_channels := 1 }] }

/-- Same for `c3Bytes` (the `pixi` depth byte is 10). -/
def c3F : InternalFeatures := {
  has_primary_item := true
  primary_item_id := 1
  primary_item_features := {
    width := 1
    height := 1
    bit_depth := 10
    num_channels := 1
    primary_item_id_location := 24
    primary_item_id_bytes := 2 }
  iinf_parsed := true
  props := [{ property_index := 1, item_id := 1 }, { property_index := 2, item_id := 1 }]
  dim_props := [{ property_index := 1, width := 1, height := 1 }]
  chan_props := [{ property_index := 2, bit_depth := 10, num_channels := 1 }] }

/-- C2: amended bounds on a successful `get_features` run.  The reported
`bit_depth` and `num_channels` are nonzero and `num_channels ≤ 4`, and
every accumulated channel record has a nonzero depth and a channel count
between 1 and 3.  Contrary to the claim, `pixi` accepts any nonzero bit
depth (not only 8, 10, 12) and any channel count 1..3 (not only 1 and
3). -/
theorem C2_claim {data : List Nat} {f : InternalFeatures} {nb : Nat}
    (h : get_featuresFull data = (f, nb, .ok ())) :
    1 ≤ f.primary_item_features.bit_depth ∧
    1 ≤ f.primary_item_features.num_channels ∧
    f.primary_item_features.num_channels ≤ 4 ∧
    ∀ c ∈ f.chan_props, 1 ≤ c.bit_depth ∧ 1 ≤ c.num_channels ∧ c.num_channels ≤ 3 := by
  have heff := get_featuresFull_eff h
  obtain ⟨hchan, -, -, hok, -⟩ := heff.2 (Inv_init data)
  obtain ⟨-, hbd, hnc1, hnc4⟩ := hok rfl
  exact ⟨hbd, hnc1, hnc4, hchan⟩

set_option maxRecDepth 10000 in
theorem C2_witness :
    1 ≤ c2okF.primary_item_features.bit_depth ∧
    1 ≤ c2okF.primary_item_features.num_channels ∧
    c2okF.primary_item_features.num_channels ≤ 4 ∧
    ∀ c ∈ c2okF.chan_props, 1 ≤ c.bit_depth ∧ 1 ≤ c.num_channels ∧ c.num_channels ≤ 3 :=
  @C2_claim c2okBytes c2okF 8 (by decide)

set_option maxRecDepth 10000 in
/-- C2 counterexample: a file whose `pixi` box declares bit depth 7 is
accepted, and the reported `bit_depth` is 7, outside {8, 10, 12}. -/
theorem C2_counterexample :
    get_features c2Bytes = .ok {
      width := 1
      height := 1
      bit_depth := 7
      num_channels := 1
      primary_item_id_location := 24
      primary_item_id_bytes := 2 } ∧
    ([8, 10, 12] : List Nat).contains 7 = false := by
  decide

/-- C3: on every successful `get_features` run a primary item was
recorded, and the recorded `primary_item_id_location`/`primary_item_id_bytes`
pair addresses, inside the original buffer, exactly the big-endian bytes
of the recorded primary item id (the width being 2 or 4 bytes). -/
theorem C3_claim {data : List Nat} {f : InternalFeatures} {nb : Nat}
    (h : get_featuresFull data = (f, nb, .ok ())) :
    f.has_primary_item = true ∧
    f.primary_item_features.primary_item_id_location +
      f.primary_item_features.primary_item_id_bytes ≤ data.length ∧
    sliceBE data f.primary_item_features.primary_item_id_location
      f.primary_item_features.primary_item_id_bytes = f.primary_item_id ∧
    (f.primary_item_features.primary_item_id_bytes = 2 ∨
     f.primary_item_features.primary_item_id_bytes = 4) := by
  have heff := get_featuresFull_eff h
  obtain ⟨-, hloc, -, hok, -⟩ := heff.2 (Inv_init data)
  have hpi := (hok rfl).1
  obtain ⟨h1, h2, h3⟩ := hloc hpi
  exact ⟨hpi, h1, h2, h3⟩

set_option maxRecDepth 10000 in
theorem C3_witness :
    c3F.has_primary_item = true ∧
    c3F.primary_item_features.primary_item_id_location +
      c3F.primary_item_features.primary_item_id_bytes ≤ c3Bytes.length ∧
    sliceBE c3Bytes c3F.primary_item_features.primary_item_id_location
      c3F.primary_item_features.primary_item_id_bytes = c3F.primary_item_id ∧
    (c3F.primary_item_features.primary_item_id_bytes = 2 ∨
     c3F.primary_item_features.primary_item_id_bytes = 4) :=
  @C3_claim c3Bytes c3F 8 (by decide)

/-- C4: amended — `parse_iinf` never consults the resolver and never
returns success; traversing `iinf` always ends in an error (`NotFound`
on a normal exit), so a gap closed during the traversal of `iinf` can
never end the whole traversal successfully at that point (contrary to
the claim; the success propagation does hold for `iprp` and `iref`). -/
theorem C4_claim (f : InternalFeatures) (nl : Nat) (s : Stream) (bv nb : Nat) :
    ∃ e, (f.parse_iinf nl s bv nb).2.2 = .error e := by
  cases hres : f.parse_iinf nl s bv nb with
  | mk f' v =>
    obtain ⟨nb', r⟩ := v
    obtain ⟨-, -, -, e, he⟩ := parse_iinf_eff hres
    exact ⟨e, he⟩

set_option maxRecDepth 10000 in
/-- C4 counterexample: on `c4Bytes` (meta with `iinf` last, after all the
information needed by the resolver is in place) the resolver succeeds on
the final accumulator state, yet the traversal ends with `InvalidFile`. -/
theorem C4_counterexample :
    (get_featuresFull c4Bytes).2.2 = .error .Invalid ∧
    ((get_featuresFull c4Bytes).1.get_primary_item_features).2 = .ok () := by
  decide

/-- C10: no access is out of bounds and no unchecked arithmetic occurs:
a successful `read` implies the requested range lies inside the backing
data and below `usize::MAX` (so the slice indexing cannot panic); a
substream's backing bytes come from a range of the parent's data that was
checked to be in bounds; the fixed-capacity record lists never exceed
their capacities on any input; and at nonzero nesting `parse_box` always
reports a known content size (so the `auxC` branch's `unwrap` cannot
panic). -/
theorem C10_claim :
    (∀ (s s' : Stream) (n : Nat) (l : List Nat), n ≠ 0 → s.read n = .ok (l, s') →
      s.offset + n ≤ USIZE_MAX ∧
      ∃ d, s.data = some d ∧ s.offset + n ≤ d.length ∧ l = (d.drop s.offset).take n) ∧
    (∀ (s c s' : Stream) (cs : Option Nat) (w : List Nat),
      s.substream cs = .ok (c, s') → c.data = some w →
      ∃ d, s.data = some d ∧ s.offset + w.length ≤ d.length ∧
        w = (d.drop s.offset).take w.length) ∧
    (∀ (data : List Nat) (f : InternalFeatures) (nb : Nat) (r : InternalResult Unit),
      get_featuresFull data = (f, nb, r) →
      f.tiles.length ≤ AVIFINFO_MAX_TILES ∧ f.props.length ≤ AVIFINFO_MAX_PROPS ∧
      f.dim_props.length ≤ AVIFINFO_MAX_FEATURES ∧
      f.chan_props.length ≤ AVIFINFO_MAX_FEATURES) ∧
    (∀ (nl : Nat) (s s' : Stream) (nb nb' : Nat) (b : InternalBox), nl ≠ 0 →
      parse_box nl s nb = .ok (b, s', nb') → b.content_size.isSome = true) := by
  refine ⟨?_, ?_, ?_, ?_⟩
  · intro s s' n l hn h
    obtain ⟨-, -, -, -, hrest⟩ := Stream.read_ok h
    obtain ⟨hmax, -, d, hd, hle, hl⟩ := hrest hn
    exact ⟨hmax, d, hd, hle, hl⟩
  · intro s c s' cs w hsub hw
    obtain ⟨-, -, -, -, -, -, hdat⟩ := Stream.substream_ok hsub
    obtain ⟨d, hd, hle, hweq, -⟩ := hdat w hw
    exact ⟨d, hd, hle, hweq⟩
  · intro data f nb r h
    have heff := get_featuresFull_eff h
    obtain ⟨-, -, hlen, -, -⟩ := heff.2 (Inv_init data)
    exact hlen
  · intro nl s s' nb nb' b hnl h
    exact (parse_box_ok h).2.2.2.2.2.1 hnl

theorem C10_witness :
    ({} : InternalFeatures).tiles.length ≤ AVIFINFO_MAX_TILES ∧
    ({} : InternalFeatures).props.length ≤ AVIFINFO_MAX_PROPS ∧
    ({} : InternalFeatures).dim_props.length ≤ AVIFINFO_MAX_FEATURES ∧
    ({} : InternalFeatures).chan_props.length ≤ AVIFINFO_MAX_FEATURES :=
  C10_claim.2.2.1 [] {} 0 (.error .Truncated) (by decide)

theorem parse_metaLoop_monoX {fuel : Nat} {f f' : InternalFeatures} {nl so : Nat}
    {s : Stream} {nb nb' : Nat} {r : InternalResult Unit}
    (h : parse_metaLoop fuel f nl so s nb = (f', nb', r)) :
    MonoX f f' r.isOk := by
  induction fuel generalizing f s nb with
  | zero =>
    unfold parse_metaLoop at h
    cases h
    exact MonoX.selfX _ _
  | succ fuel ih =>
    unfold parse_metaLoop at h
    split at h
    · cases hpb : parse_box nl s nb with
      | error e =>
        rw [hpb] at h; cases h
        exact MonoX.selfX _ _
      | ok v =>
        obtain ⟨bf, s1, nb1⟩ := v
        rw [hpb] at h
        dsimp only at h
        cases hsub : s1.substream bf.content_size with
        | error e =>
          rw [hsub] at h; cases h
          exact MonoX.selfX _ _
        | ok w =>
          obtain ⟨bs, s2⟩ := w
          rw [hsub] at h
          dsimp only at h
          by_cases hbt1 : bf.box_type = pitmCC
          · rw [if_pos hbt1] at h
            cases hca : checkedAdd so s1.num_read_bytes with
            | none =>
              rw [hca] at h
              dsimp only at h; cases h
              exact MonoX.selfX _ _
            | some loc =>
              rw [hca] at h
              dsimp only at h
              cases hread : bs.read_uint (if bf.version = 0 then 2 else 4) with
              | error e =>
                rw [hread] at h
                dsimp only at h; cases h
                exact MonoX.selfX _ _
              | ok v1 =>
                obtain ⟨pid, bs1⟩ := v1
                rw [hread] at h
                dsimp only at h
                split at h
                · cases h
                  exact MonoX.selfX _ _
                · exact (pitm_set_monoX f pid loc _).transX (ih h)
          · rw [if_neg hbt1] at h
            by_cases hbt2 : bf.box_type = iprpCC
            · rw [if_pos hbt2] at h
              cases hp : f.parse_iprp (nl + 1) bs nb1 with
              | mk f1 v1 =>
                obtain ⟨nb2, r1⟩ := v1
                rw [hp] at h
                have hm1 := ((parse_iprp_eff hp).1 []).1
                cases r1 with
                | ok u =>
                  cases u
                  dsimp only at h; cases h
                  exact hm1
                | error e1 =>
                  cases e1 with
                  | NotFound =>
                    dsimp only at h
                    exact MonoX.transX hm1 (ih h)
                  | Truncated => dsimp only at h; cases h; exact hm1
                  | Aborted => dsimp only at h; cases h; exact hm1
                  | Invalid => dsimp only at h; cases h; exact hm1
            · rw [if_neg hbt2] at h
              by_cases hbt3 : bf.box_type = irefCC
              · rw [if_pos hbt3] at h
                cases hp : f.parse_iref (nl + 1) bs nb1 with
                | mk f1 v1 =>
                  obtain ⟨nb2, r1⟩ := v1
                  rw [hp] at h
                  have hm1 := ((parse_iref_eff hp).1 []).1
                  cases r1 with
                  | ok u =>
                    cases u
                    dsimp only at h; cases h
                    exact hm1
                  | error e1 =>
                    cases e1 with
                    | NotFound =>
                      dsimp only at h
                      exact MonoX.transX hm1 (ih h)
                    | Truncated => dsimp only at h; cases h; exact hm1
                    | Aborted => dsimp only at h; cases h; exact hm1
                    | Invalid => dsimp only at h; cases h; exact hm1
              · rw [if_neg hbt3] at h
                by_cases hbt4 : bf.box_type = iinfCC
                · rw [if_pos hbt4] at h
                  cases hp : f.parse_iinf (nl + 1) bs bf.version nb1 with
                  | mk f1 v1 =>
                    obtain ⟨nb2, r1⟩ := v1
                    rw [hp] at h
                    obtain ⟨hm1, -, -, e1, he1⟩ := parse_iinf_eff hp
                    subst he1
                    cases e1 with
                    | NotFound =>
                      dsimp only at h
                      exact MonoX.transX hm1 (ih h)
                    | Truncated => dsimp only at h; cases h; exact hm1
                    | Aborted => dsimp only at h; cases h; exact hm1
                    | Invalid => dsimp only at h; cases h; exact hm1
                · rw [if_neg hbt4] at h
                  exact ih h
    · cases h
      exact MonoX.selfX _ _

/-- C8: amended — across the `meta` traversal the accumulator evolves
monotonically in the following sense: the four record lists only grow by
appending, the boolean flags (`has_primary_item`, `has_alpha`,
`data_was_skipped`, `iinf_parsed`, `iref_parsed`, `has_gainmap`) are
only ever set, a nonzero `gainmap_property_index` stays nonzero, and the
width/height and depth/channel pairs of `primary_item_features` are
never overwritten once both members are set (a successful run may bump
`num_channels` once, for alpha).  Contrary to the claim, fields are not
set at most once: re-encountered boxes overwrite them (see the
counterexample). -/
theorem C8_claim {fuel : Nat} {f f' : InternalFeatures} {nl so : Nat} {s : Stream}
    {nb nb' : Nat} {r : InternalResult Unit}
    (h : parse_metaLoop fuel f nl so s nb = (f', nb', r)) :
    MonoX f f' r.isOk :=
  parse_metaLoop_monoX h

set_option maxRecDepth 10000 in
theorem C8_witness : MonoX {} c2okF true :=
  @C8_claim 100 {} c2okF 1 12
    { data := some (c2okBytes.drop 12), size := some 99, offset := 0 } 1 8 (.ok ())
    (by decide)

def c8Box : InternalBox :=
  { box_type := auxCCC, version := 0, flags := 0, content_size := some 29 }

def c8Stream : Stream := { data := some GAINMAP_STR, size := some 29, offset := 0 }

/-- C8 counterexample: processing a second `auxC` gain-map property (the
256-th line of `parse_ipco`'s `auxC` arm) overwrites the already-set
`gainmap_property_index`: after the first box it is 1, after the second
it is 2.  So accumulator fields are not "set exactly once, never
replaced". -/
theorem C8_counterexample :
    (ipco_process_box {} c8Box c8Stream 1).1.gainmap_property_index = 1 ∧
    (ipco_process_box (ipco_process_box {} c8Box c8Stream 1).1
      c8Box c8Stream 2).1.gainmap_property_index = 2 := by
  decide

theorem ftypLoop_ok {s : Stream} {d : List Nat} {c i rem : Nat}
    (hd : s.data = some d) (hsz : s.size = none)
    (h : ftypLoop s c i rem = .ok ()) :
    ∃ j, i ≤ j ∧ j ≤ max i 33 ∧ j ≠ 1 ∧
      ((d.drop (s.offset + 4 * (j - i))).take 4 = avifCC ∨
       (d.drop (s.offset + 4 * (j - i))).take 4 = avisCC) := by
  induction rem generalizing s i with
  | zero =>
    unfold ftypLoop at h
    simp at h
  | succ rem ih =>
    unfold ftypLoop at h
    cases h4 : s.read_4cc with
    | error e =>
      rw [h4] at h
      simp at h
    | ok v =>
      obtain ⟨brand, s1⟩ := v
      rw [h4] at h
      dsimp only at h
      obtain ⟨hd1, hsz1, hoff1, hlen1, hrest⟩ := Stream.read_ok h4
      obtain ⟨-, -, d', hd', hle', hl'⟩ := hrest (by omega)
      have hdd : d' = d := by
        rw [hd] at hd'
        exact (Option.some.inj hd').symm
      subst hdd
      have hd1' : s1.data = some d' := by rw [hd1]; exact hd
      have hsz1' : s1.size = none := by rw [hsz1]; exact hsz
      split at h
      · rename_i hi
        obtain ⟨j, hj1, hj2, hj3, hj4⟩ := ih hd1' hsz1' h
        refine ⟨j, by omega, by omega, hj3, ?_⟩
        have heq : s1.offset + 4 * (j - (i + 1)) = s.offset + 4 * (j - i) := by omega
        rw [heq] at hj4
        exact hj4
      · rename_i hi
        split at h
        · rename_i hmatch
          refine ⟨i, le_refl _, by omega, hi, ?_⟩
          rw [show s.offset + 4 * (i - i) = s.offset from by omega, ← hl']
          exact hmatch
        · split at h
          · simp at h
          · rename_i hm h32
            obtain ⟨j, hj1, hj2, hj3, hj4⟩ := ih hd1' hsz1' h
            refine ⟨j, by omega, by omega, hj3, ?_⟩
            have heq : s1.offset + 4 * (j - (i + 1)) = s.offset + 4 * (j - i) := by omega
            rw [heq] at hj4
            exact hj4

/-- From a successful top-level `parse_box` on the whole buffer whose
reported type is `ftyp`: the type bytes sit at offsets 4..8 of the
buffer, the returned stream still views the whole buffer, and the header
consumed is 8 bytes (16 with the extended size field). -/
theorem parse_box_ftyp_top {data : List Nat} {b : InternalBox} {s1 : Stream} {nb nb1 : Nat}
    (hpb : parse_box 0 { data := some data, size := none, offset := 0 } nb = .ok (b, s1, nb1))
    (hbt' : b.box_type = ftypCC) :
    (data.drop 4).take 4 = ftypCC ∧ (s1.offset = 8 ∨ s1.offset = 16) := by
  unfold parse_box at hpb
  cases h32 : Stream.read_u32 { data := some data, size := none, offset := 0 } with
  | error e => rw [h32] at hpb; cases hpb
  | ok v32 =>
    obtain ⟨size32, sa⟩ := v32
    rw [h32] at hpb
    dsimp only at hpb
    cases h4cc : sa.read_4cc with
    | error e => rw [h4cc] at hpb; cases hpb
    | ok v4 =>
      obtain ⟨bt0, sb⟩ := v4
      rw [h4cc] at hpb
      dsimp only at hpb
      have hoffa : sa.offset = 4 := (Stream.read_u32_ok h32).2.2.1
      have hda : sa.data = some data := (Stream.read_u32_ok h32).1
      have hoffb : sb.offset = sa.offset + 4 := (Stream.read_ok h4cc).2.2.1
      have hnf : is_fullbox_type ftypCC = false := by decide
      obtain ⟨-, -, -, -, hrest4⟩ := Stream.read_ok h4cc
      obtain ⟨-, -, d', hd', hle', hl'⟩ := hrest4 (by omega)
      have hdd : d' = data := by
        rw [hda] at hd'
        exact (Option.some.inj hd').symm
      subst hdd
      split at hpb
      · cases h64 : sb.read_u64 with
        | error e => rw [h64] at hpb; cases hpb
        | ok v64 =>
          obtain ⟨size64, sc⟩ := v64
          rw [h64] at hpb
          dsimp only at hpb
          have hoffc : sc.offset = sb.offset + 8 := (Stream.read_u64_ok h64).2.2.1
          have hbt0 : bt0 = ftypCC := by
            rcases (parse_box_tail_ok hpb).2.2.2.2.2.2.2.1 with hx | ⟨hx, hful⟩
            · rw [← hx]
              exact hbt'
            · rw [hbt'] at hx
              exact absurd hx (by decide)
          obtain ⟨hs', -⟩ := (parse_box_tail_ok hpb).2.2.2.2.2.2.2.2 (by rw [hbt0]; exact hnf)
          refine ⟨?_, Or.inr ?_⟩
          · rw [← hbt0, hl', hoffa]
          · rw [hs']
            omega
      · split at hpb
        · rw [if_neg (by omega)] at hpb
          have hbt0 : bt0 = ftypCC := by
            rcases (parse_box_tail_ok hpb).2.2.2.2.2.2.2.1 with hx | ⟨hx, hful⟩
            · rw [← hx]
              exact hbt'
            · rw [hbt'] at hx
              exact absurd hx (by decide)
          obtain ⟨hs', -⟩ := (parse_box_tail_ok hpb).2.2.2.2.2.2.2.2 (by rw [hbt0]; exact hnf)
          refine ⟨?_, Or.inl ?_⟩
          · rw [← hbt0, hl', hoffa]
          · rw [hs']
            omega
        · have hbt0 : bt0 = ftypCC := by
            rcases (parse_box_tail_ok hpb).2.2.2.2.2.2.2.1 with hx | ⟨hx, hful⟩
            · rw [← hx]
              exact hbt'
            · rw [hbt'] at hx
              exact absurd hx (by decide)
          obtain ⟨hs', -⟩ := (parse_box_tail_ok hpb).2.2.2.2.2.2.2.2 (by rw [hbt0]; exact hnf)
          refine ⟨?_, Or.inl ?_⟩
          · rw [← hbt0, hl', hoffa]
          · rw [hs']
            omega

/-- C1: amended — soundness of `identify`.  Whenever `identify data`
succeeds, `data` starts with a box whose type bytes (at offsets 4..8)
are `ftyp`, and some brand entry `j ≤ 33` other than the skipped minor
version (entry 1) equals `avif` or `avis` (entry `j` sits at offset
`hdr + 4*j`, `hdr` being the 8-byte header size, or 16 bytes with an
extended size field).  The claimed "if and only if" is false: the scan
gives up with `TooComplex` without reaching a matching brand at entry 34
or later (see the counterexample). -/
theorem C1_claim {data : List Nat} (h : identify data = .ok ()) :
    (data.drop 4).take 4 = ftypCC ∧
    ∃ hdr, (hdr = 8 ∨ hdr = 16) ∧ ∃ j, j ≤ 33 ∧ j ≠ 1 ∧
      ((data.drop (hdr + 4 * j)).take 4 = avifCC ∨
       (data.drop (hdr + 4 * j)).take 4 = avisCC) := by
  unfold identify at h
  cases hft : parse_ftyp { data := some data, size := none, offset := 0 } with
  | error e =>
    rw [hft] at h
    simp at h
  | ok u =>
    cases u
    clear h
    unfold parse_ftyp at hft
    cases hpb : parse_box 0 { data := some data, size := none, offset := 0 } 0 with
    | error e => rw [hpb] at hft; cases hft
    | ok v =>
      obtain ⟨bf, s1, n1⟩ := v
      rw [hpb] at hft
      dsimp only at hft
      split at hft
      · cases hft
      · rename_i hbt
        have hbt' : bf.box_type = ftypCC := not_not.mp hbt
        cases hcs : bf.content_size with
        | none => rw [hcs] at hft; cases hft
        | some cs =>
          rw [hcs] at hft
          dsimp only at hft
          split at hft
          · cases hft
          · have hb := parse_box_ok hpb
            obtain ⟨htype, hoff⟩ := parse_box_ftyp_top hpb hbt'
            obtain ⟨j, -, hj33, hj1, hj4⟩ := ftypLoop_ok hb.1 hb.2.1 hft
            refine ⟨htype, s1.offset, hoff, j, by omega, hj1, ?_⟩
            rw [show s1.offset + 4 * (j - 0) = s1.offset + 4 * j from by omega] at hj4
            exact hj4

def c1Bytes : List Nat :=
  [0, 0, 0, 148, 102, 116, 121, 112] ++ [97, 97, 97, 97] ++ [0, 0, 0, 0] ++
  (List.replicate 32 [98, 98, 98, 98]).flatten ++ [97, 118, 105, 102]

set_option maxRecDepth 10000 in
/-- C1 counterexample: a well-formed `ftyp` whose brand list contains
`avif` — but only at entry 34 — is rejected with `TooComplex`, refuting
the claimed "if and only if". -/
theorem C1_counterexample :
    identify c1Bytes = .error .TooComplex ∧
    (c1Bytes.drop (8 + 4 * 34)).take 4 = avifCC := by
  decide

/-- Fuel irrelevance for the top-level loop: any fuel exceeding the
stream measure gives the same result, so the `measure + 1` fuel of
`parse_file` models the unbounded `loop` of the source (each iteration
strictly decreases the measure, `loop_measure_lt`). -/
theorem parse_fileLoop_fuel {fuel1 fuel2 : Nat} {f : InternalFeatures} {s : Stream}
    {nb : Nat} (h1 : s.measure < fuel1) (h2 : s.measure < fuel2) :
    parse_fileLoop fuel1 f s nb = parse_fileLoop fuel2 f s nb := by
  induction fuel1 generalizing fuel2 f s nb with
  | zero => omega
  | succ fuel1 ih =>
    cases fuel2 with
    | zero => omega
    | succ fuel2 =>
      show parse_fileLoop (fuel1 + 1) f s nb = parse_fileLoop (fuel2 + 1) f s nb
      unfold parse_fileLoop
      cases hpb : parse_box 0 s nb with
      | error e => rfl
      | ok v =>
        obtain ⟨bf, s1, nb1⟩ := v
        dsimp only
        cases hsub : s1.substream bf.content_size with
        | error e => rfl
        | ok w =>
          obtain ⟨bs, s2⟩ := w
          dsimp only
          split
          · rfl
          · split
            · rfl
            · have hlt := loop_measure_lt hpb hsub
              exact ih (by omega) (by omega)

/-- C9: parsing always terminates within the fixed bounds.  The
top-level box loop needs at most `measure + 1` iterations (any larger
fuel gives the same result); the shared box counter stays below 4096 and
is not incremented for a top-level `ftyp`; the fixed-capacity record
lists never exceed 16 tiles, 32 property associations, 8 dim-props and 8
chan-props on any input; and the tile recursion of `get_item_features`
stops at depth 3: with the budget exhausted it returns without scanning
tiles, yielding `Ok` or `NotFound` directly. -/
theorem C9_claim :
    (∀ (fuel : Nat) (f : InternalFeatures) (s : Stream) (nb : Nat), s.measure < fuel →
      parse_fileLoop fuel f s nb = parse_fileLoop (s.measure + 1) f s nb) ∧
    (∀ (nl : Nat) (s s' : Stream) (nb nb' : Nat) (b : InternalBox),
      parse_box nl s nb = .ok (b, s', nb') →
      ((nl = 0 ∧ b.box_type = ftypCC) → nb' = nb) ∧
      ((nl ≠ 0 ∨ b.box_type ≠ ftypCC) →
        nb' = nb + 1 ∧ nb' < AVIFINFO_MAX_NUM_BOXES)) ∧
    (∀ (data : List Nat) (f : InternalFeatures) (nb : Nat) (r : InternalResult Unit),
      get_featuresFull data = (f, nb, r) →
      f.tiles.length ≤ AVIFINFO_MAX_TILES ∧ f.props.length ≤ AVIFINFO_MAX_PROPS ∧
      f.dim_props.length ≤ AVIFINFO_MAX_FEATURES ∧
      f.chan_props.length ≤ AVIFINFO_MAX_FEATURES) ∧
    (∀ (f : InternalFeatures) (t d : Nat), 3 ≤ d →
      f.get_item_features t d = get_item_features_aux 0 f t) ∧
    (∀ (f : InternalFeatures) (t : Nat),
      (get_item_features_aux 0 f t).2 = .ok () ∨
      (get_item_features_aux 0 f t).2 = .error .NotFound) := by
  refine ⟨?_, ?_, ?_, ?_, ?_⟩
  · intro fuel f s nb hf
    exact parse_fileLoop_fuel hf (by omega)
  · intro nl s s' nb nb' b h
    obtain ⟨-, -, -, -, -, -, h7, h8⟩ := parse_box_ok h
    exact ⟨h7, fun hc => by obtain ⟨ha, hb⟩ := h8 hc; omega⟩
  · intro data f nb r h
    have heff := get_featuresFull_eff h
    obtain ⟨-, -, hlen, -, -⟩ := heff.2 (Inv_init data)
    exact hlen
  · intro f t d hd
    unfold InternalFeatures.get_item_features
    rw [show 3 - d = 0 from by omega]
  · intro f t
    unfold get_item_features_aux
    cases hgp : gifProps f t f.props with
    | mk f1 early =>
      cases early with
      | true => exact Or.inl rfl
      | false => exact Or.inr rfl

set_option maxRecDepth 10000 in
theorem C9_witness :
    parse_fileLoop 121 {} { data := some c2okBytes, size := none, offset := 0 } 0 =
      parse_fileLoop 120 {} { data := some c2okBytes, size := none, offset := 0 } 0 :=
  C9_claim.1 121 {} { data := some c2okBytes, size := none, offset := 0 } 0 (by decide)

def c1okBytes : List Nat :=
  [0, 0, 0, 16, 102, 116, 121, 112, 97, 118, 105, 102, 0, 0, 0, 0]

set_option maxRecDepth 10000 in
theorem C1_witness :
    (c1okBytes.drop 4).take 4 = ftypCC ∧
    ∃ hdr, (hdr = 8 ∨ hdr = 16) ∧ ∃ j, j ≤ 33 ∧ j ≠ 1 ∧
      ((c1okBytes.drop (hdr + 4 * j)).take 4 = avifCC ∨
       (c1okBytes.drop (hdr + 4 * j)).take 4 = avisCC) :=
  C1_claim (by decide)
